import Mathlib

/-!
# Verification of the build staging layer (`garden-service/src/build-dir.ts`)

This file gives a shallow embedding of the `BuildDir` class from
`src/garden-service/src/build-dir.ts` and proves properties of its staging
operations (`syncFromSrc`, `syncDependencyProducts`, `clear`, `buildPath`,
`buildMetadataPath`, `sync`).

Modelling conventions:

* Filesystem paths are modelled by their `/`-separated component lists
  (the image of `String.splitOn "/"`), so `"/a/b"` is `["", "a", "b"]`,
  `""` is `[""]` and `"a/"` is `["a", ""]`.  `toPath`/`renderPath` convert
  between the two representations.  The Node `path` functions used by the
  source (`join`, `resolve`, `parse(..).dir`, `isAbsolute`, `sep`) are
  embedded on this representation, including `.`/`..`/`//` normalization.
* Filesystem effects (`ensureDir`, `emptyDir` from `fs-extra`, and the
  `execa("rsync", args)` subprocess invocation) are modelled as an explicit
  trace of operations (`Op`).  An environment `Env : Op → Option String`
  chooses the outcome of each attempted operation (`none` = success,
  `some msg` = failure); a failed `await` makes the surrounding promise
  reject, which the embedding models by stopping and returning the error,
  exactly following the source's control flow (which installs no handler).
* `ConfigurationError` (from `exceptions.ts`) and rejected operation
  promises are both represented by `GardenError`.
* The concurrent `bluebird.map` iterations are modelled sequentially, in
  list order; this preserves which operations are attempted and which
  errors surface.
-/

set_option linter.unusedVariables false
set_option linter.unreachableTactic false
set_option linter.unusedTactic false
set_option linter.unnecessarySeqFocus false

namespace Garden

/-- A filesystem path, as the list of its `/`-separated components. -/
abbrev Path := List String

/-- Split a character list at every `'/'` (the structural implementation of
`String.splitOn "/"`: splitting `""` gives `[""]`, and every separator
starts a new component). -/
def splitSlash : List Char → List String
  | [] => [""]
  | c :: cs =>
    let rest := splitSlash cs
    if c = '/' then "" :: rest
    else
      match rest with
      | [] => [String.mk [c]]
      | w :: ws => String.mk (c :: w.data) :: ws

/-- Convert a string into its path-component list (`s.splitOn "/"`). -/
def toPath (s : String) : Path := splitSlash s.data

/-- Render a component list back into the string it came from
(`String.intercalate "/"`, the inverse of `toPath`). -/
def renderPath (p : Path) : String := String.intercalate "/" p

/-- Node `path.isAbsolute`: the path string starts with the separator,
i.e. its first component is empty and there is at least one more. -/
def isAbsolutePath (p : Path) : Bool :=
  match p with
  | c :: _ :: _ => c == ""
  | _ => false

/-- Core of Node path normalization: process components left to right,
dropping empty and `.` components and letting `..` pop the previously kept
component (`..` is preserved at the front of a relative path and dropped at
the root of an absolute one).  `acc` holds the kept components in reverse. -/
def normCore (isAbs : Bool) (acc : List String) : List String → List String
  | [] => acc
  | c :: cs =>
    if c = "" ∨ c = "." then normCore isAbs acc cs
    else if c = ".." then
      match acc with
      | [] => normCore isAbs (if isAbs then [] else [".."]) cs
      | a :: rest =>
        if a = ".." then normCore isAbs (".." :: acc) cs else normCore isAbs rest cs
    else normCore isAbs (c :: acc) cs

/-- Node path normalization on component lists.  `keepTrailing` preserves a
trailing separator (as `path.join` does; `path.resolve` does not). -/
def normalizePath (keepTrailing : Bool) (p : Path) : Path :=
  let isAbs := isAbsolutePath p
  let core := (normCore isAbs [] p).reverse
  let base :=
    if isAbs then (if core = [] then ["", ""] else "" :: core)
    else (if core = [] then ["."] else core)
  if keepTrailing && (p.getLast? == some "") && !(base.getLast? == some "") then
    base ++ [""]
  else base

/-- Node `path.join(a, b)`: drop empty arguments, concatenate with the
separator, normalize (preserving a trailing separator). -/
def join (a b : Path) : Path :=
  let parts := [a, b].filter (fun q => q ≠ [""])
  normalizePath true (parts.foldr (fun x r => x ++ r) [])

/-- Node `path.resolve(base, p)`: `p` itself if absolute, otherwise `p`
appended to `base`; normalized, without a trailing separator.  (The callers
in `build-dir.ts` always pass an absolute `base`, so the `cwd` fallback of
Node's `resolve` is never exercised and is not modelled.) -/
def resolve (base p : Path) : Path :=
  if isAbsolutePath p then normalizePath false p else normalizePath false (base ++ p)

/-- Node `path.parse(p).dir`: everything before the last separator, with
trailing separators ignored (`parse("a/b/").dir = "a"`, `parse("/a").dir = "/"`,
`parse("a").dir = ""`). -/
def parseDir (p : Path) : Path :=
  let q := (p.reverse.dropWhile (fun c => c == "")).reverse
  match q with
  | [] => if p = [""] ∨ p = [] then [""] else ["", ""]
  | [_] => [""]
  | l =>
    let d := l.dropLast
    if d = [""] then ["", ""] else d

/-- `stripWildcard` from `build-dir.ts`: if the path string ends with `/*`,
drop the final `*` (keeping the trailing separator). -/
def stripWildcard (p : Path) : Path :=
  match p with
  | _ :: _ :: _ => if p.getLast? == some "*" then p.dropLast ++ [""] else p
  | _ => p

/-- Modelled from the spec: `toCygwinPath` (from `util/fs.ts`, which is not
under `src/`) translates a host (drive-letter style) path into the
POSIX-style `/cygdrive/...` path that the cygwin-based rsync client
understands (spec §4.2: "Path translation for the underlying external
synchronization tool must account for host-specific path syntax differences
(e.g. drive-letter vs. POSIX paths) without changing the operations'
semantics"). -/
def toCygwinPath (p : Path) : Path :=
  "" :: "cygdrive" :: p.filter (fun c => c ≠ "")

/-! ## Filesystem effects -/

/-- One filesystem effect issued by `BuildDir`: `fs-extra`'s `ensureDir` /
`emptyDir`, or the `execa("rsync", [...opts, sourcePath, destinationPath])`
subprocess invocation. -/
inductive Op where
  | ensureDir (path : Path)
  | emptyDir (path : Path)
  | rsync (opts : List String) (sourcePath destinationPath : Path)
deriving DecidableEq, Repr

/-- Errors surfaced by the staging layer: `ConfigurationError` thrown by
`syncDependencyProducts` (from `exceptions.ts`, declared outside `src/`),
or the rejection of an awaited filesystem/subprocess operation. -/
inductive GardenError where
  | configError (message : String)
  | opFailed (op : Op) (message : String)
deriving DecidableEq, Repr

/-- The outcome environment: for each attempted operation, `none` means the
awaited promise fulfils and `some msg` means it rejects with `msg`. -/
def Env : Type := Op → Option String

/-- Result of running a `BuildDir` method: the trace of operations it
attempted, in order, and its own promise's outcome. -/
abbrev M (α : Type) : Type := List Op × Except GardenError α

/-! ## Module data (fields of `types/module` / `config/module` used by
`build-dir.ts`) -/

/-- `FileCopySpec` (`types/module`): one `{ source, target }` copy spec of
a build dependency. -/
structure FileCopySpec where
  source : String
  target : String
deriving DecidableEq, Repr

/-- One entry of `module.build.dependencies`: the depended-on module's name,
the plugin qualifying it (if any), and its optional copy spec list.  In the
source, `zip(buildDependencies, dependencyConfigs)` zips this very list with
itself, so one structure plays both the `sourceModule` and the `depConfig`
role. -/
structure BuildDependencyConfig where
  name : String
  plugin : Option String
  copy : Option (List FileCopySpec)
deriving DecidableEq, Repr

/-- The `build` section of a module: its build dependencies. -/
structure ModuleBuildConfig where
  dependencies : List BuildDependencyConfig
deriving DecidableEq, Repr

/-- The fields of `Module` used by `syncDependencyProducts`. -/
structure Module where
  name : String
  build : ModuleBuildConfig
deriving DecidableEq, Repr

/-- The fields of `ModuleConfig` used by `syncFromSrc`. -/
structure ModuleConfig where
  name : String
  path : String
deriving DecidableEq, Repr

/-- Modelled from the spec: `getModuleKey` (from `types/module`, not under
`src/`) returns the dependency module's unique key — its name, qualified by
the providing plugin when one is set. -/
def getModuleKey (name : String) (plugin : Option String) : String :=
  match plugin with
  | some p => p ++ "--" ++ name
  | none => name

/-- lodash `zip`, padding the shorter list with `undefined` (`none`).  In
`syncDependencyProducts` both arguments are `module.build.dependencies`, so
the two lists always have equal length. -/
def lodashZip : List α → List β → List (Option α × Option β)
  | [], bs => bs.map (fun b => (none, some b))
  | a :: as, [] => (some a, none) :: lodashZip as []
  | a :: as, b :: bs => (some a, some b) :: lodashZip as bs

/-- The sync options built in `BuildDir.sync`:
`["-rptgo", "--exclude=${this.buildDirPath}"]`, with `--delete` pushed when
`withDelete` is set. -/
def syncOpts (withDelete : Bool) (buildDirPath : Path) : List String :=
  ["-rptgo", "--exclude=" ++ renderPath buildDirPath] ++
    (if withDelete then ["--delete"] else [])

/-! ## The `BuildDir` class -/

/-- The `BuildDir` class state: its constructor fields. -/
structure BuildDir where
  projectRoot : Path
  buildDirPath : Path
  buildMetadataDirPath : Path
deriving DecidableEq, Repr

namespace BuildDir

/-- `BuildDir.factory`: derive the two directories from `gardenDirPath`,
ensure both exist, and construct the instance. -/
def factory (env : Env) (projectRoot gardenDirPath : Path) : M BuildDir :=
  let buildDirPath := join gardenDirPath (toPath "build")
  let buildMetadataDirPath := join gardenDirPath (toPath "build-metadata")
  let op1 := Op.ensureDir buildDirPath
  match env op1 with
  | some m => ([op1], .error (.opFailed op1 m))
  | none =>
    let op2 := Op.ensureDir buildMetadataDirPath
    match env op2 with
    | some m => ([op1, op2], .error (.opFailed op2 m))
    | none => ([op1, op2], .ok ⟨projectRoot, buildDirPath, buildMetadataDirPath⟩)

/-- The path computed by `BuildDir.buildPath`:
`resolve(this.buildDirPath, moduleName)`. -/
def buildPathOf (b : BuildDir) (moduleName : String) : Path :=
  resolve b.buildDirPath (toPath moduleName)

/-- The path computed by `BuildDir.buildMetadataPath`:
`resolve(this.buildMetadataDirPath, moduleName)`. -/
def buildMetadataPathOf (b : BuildDir) (moduleName : String) : Path :=
  resolve b.buildMetadataDirPath (toPath moduleName)

/-- `BuildDir.buildPath`: resolve the module's directory under
`buildDirPath`, ensure it exists, and return it. -/
def buildPath (env : Env) (b : BuildDir) (moduleName : String) : M Path :=
  let path := buildPathOf b moduleName
  let op := Op.ensureDir path
  match env op with
  | some m => ([op], .error (.opFailed op m))
  | none => ([op], .ok path)

/-- `BuildDir.buildMetadataPath`: resolve the module's directory under
`buildMetadataDirPath`, ensure it exists, and return it. -/
def buildMetadataPath (env : Env) (b : BuildDir) (moduleName : String) : M Path :=
  let path := buildMetadataPathOf b moduleName
  let op := Op.ensureDir path
  match env op with
  | some m => ([op], .error (.opFailed op m))
  | none => ([op], .ok path)

/-- `BuildDir.clear`: `await emptyDir(this.buildDirPath)`. -/
def clear (env : Env) (b : BuildDir) : M Unit :=
  let op := Op.emptyDir b.buildDirPath
  match env op with
  | some m => ([op], .error (.opFailed op m))
  | none => ([op], .ok ())

/-- `BuildDir.sync`: ensure the parsed parent directory of the destination
exists, translate both paths for cygwin on win32, strip a trailing `/*`
wildcard from both, then invoke
`execa("rsync", [...syncOpts, sourcePath, destinationPath])`.
(`log.debug` has no filesystem effect and is not modelled.) -/
def sync (env : Env) (b : BuildDir) (platform : String)
    (sourcePath destinationPath : Path) (withDelete : Bool) : M Unit :=
  let destinationDir := parseDir destinationPath
  let op1 := Op.ensureDir destinationDir
  match env op1 with
  | some m => ([op1], .error (.opFailed op1 m))
  | none =>
    let sourcePath' := if platform == "win32" then toCygwinPath sourcePath else sourcePath
    let destinationPath' := if platform == "win32" then toCygwinPath destinationPath else destinationPath
    let sourcePath'' := stripWildcard sourcePath'
    let destinationPath'' := stripWildcard destinationPath'
    let op2 := Op.rsync (syncOpts withDelete b.buildDirPath) sourcePath'' destinationPath''
    match env op2 with
    | some m => ([op1, op2], .error (.opFailed op2 m))
    | none => ([op1, op2], .ok ())

/-- `BuildDir.syncFromSrc`: sync from
`resolve(this.projectRoot, module.path) + sep` to `buildPath(module.name)`
with `withDelete = true`. -/
def syncFromSrc (env : Env) (b : BuildDir) (platform : String)
    (module : ModuleConfig) : M Unit :=
  match buildPath env b module.name with
  | (t, .error e) => (t, .error e)
  | (t, .ok bp) =>
    let r := sync env b platform (resolve b.projectRoot (toPath module.path) ++ [""]) bp true
    (t ++ r.1, r.2)

/-- The inner `bluebirdMap(depConfig.copy, ...)` of `syncDependencyProducts`:
for each copy spec, reject absolute `source`/`target` with a
`ConfigurationError`, otherwise sync from
`join(sourceBuildPath, copy.source)` to `join(buildPath, copy.target)` with
`withDelete = false`. -/
def syncCopies (env : Env) (b : BuildDir) (platform : String)
    (sourceBuildPath bp : Path) : List FileCopySpec → M Unit
  | [] => ([], .ok ())
  | copy :: rest =>
    if isAbsolutePath (toPath copy.source) then
      ([], .error (.configError "Source path in build dependency copy spec must be a relative path"))
    else if isAbsolutePath (toPath copy.target) then
      ([], .error (.configError "Target path in build dependency copy spec must be a relative path"))
    else
      let sourcePath := join sourceBuildPath (toPath copy.source)
      let destinationPath := join bp (toPath copy.target)
      match sync env b platform sourcePath destinationPath false with
      | (t, .error e) => (t, .error e)
      | (t, .ok _) =>
        let r := syncCopies env b platform sourceBuildPath bp rest
        (t ++ r.1, r.2)

/-- The outer `bluebirdMap(zip(buildDependencies, dependencyConfigs), ...)`
of `syncDependencyProducts`: skip entries without a module, a config, or a
copy list; otherwise ensure the dependency's own build path and run its copy
specs. -/
def syncDeps (env : Env) (b : BuildDir) (platform : String) (bp : Path) :
    List (Option BuildDependencyConfig × Option BuildDependencyConfig) → M Unit
  | [] => ([], .ok ())
  | (sourceModule, depConfig) :: rest =>
    match sourceModule, depConfig with
    | some sm, some dc =>
      match dc.copy with
      | none => syncDeps env b platform bp rest
      | some copies =>
        match buildPath env b (getModuleKey sm.name sm.plugin) with
        | (t, .error e) => (t, .error e)
        | (t, .ok sourceBuildPath) =>
          match syncCopies env b platform sourceBuildPath bp copies with
          | (t2, .error e) => (t ++ t2, .error e)
          | (t2, .ok _) =>
            let r := syncDeps env b platform bp rest
            (t ++ t2 ++ r.1, r.2)
    | _, _ => syncDeps env b platform bp rest

/-- `BuildDir.syncDependencyProducts`: ensure the module's build path, then
process `zip(module.build.dependencies, module.build.dependencies)` (the
source zips `buildDependencies` with `dependencyConfigs`, which are the same
list). -/
def syncDependencyProducts (env : Env) (b : BuildDir) (platform : String)
    (module : Module) : M Unit :=
  match buildPath env b module.name with
  | (t, .error e) => (t, .error e)
  | (t, .ok bp) =>
    let zipped := lodashZip module.build.dependencies module.build.dependencies
    let r := syncDeps env b platform bp zipped
    (t ++ r.1, r.2)

end BuildDir

/-! ## Abstract interpretation of the operation trace

Modelled from the spec: `build-dir.ts` delegates the actual file transfer to
the external rsync tool, whose effect the spec describes (§4.2, §6): a sync
with `--delete` makes the destination's contents exactly the source's
contents (mirror semantics), a sync without `--delete` adds the source's
contents to whatever the destination already holds, and `emptyDir` wipes a
directory's subtree.  The abstract state maps each directory path to its
(opaque) content set; a trailing separator on a path denotes the same
directory (rsync's "contents of" form), so lookups canonicalize it away. -/

/-- Abstract filesystem state: the contents stored under each path. -/
def FS : Type := Path → List String

/-- Canonicalize a trailing separator: `"/a/b/"` denotes directory `"/a/b"`. -/
def canonPath (p : Path) : Path :=
  match p with
  | _ :: _ :: _ => if p.getLast? == some "" then p.dropLast else p
  | _ => p

/-- Modelled from the spec (§4.2, §6): the effect of one operation on the
abstract filesystem.  `ensureDir` creates directories but changes no
contents; `emptyDir d` empties `d` and everything below it; `rsync` replaces
the destination's contents with the source's when invoked with `--delete`
and merges them otherwise. -/
def applyOp (fs : FS) : Op → FS
  | .ensureDir _ => fs
  | .emptyDir d => fun p => if d <+: p then [] else fs p
  | .rsync opts src dest => fun p =>
    if canonPath p = canonPath dest then
      (if "--delete" ∈ opts then fs (canonPath src) else fs (canonPath src) ++ fs p)
    else fs p

/-- Interpret a trace of operations over the abstract filesystem. -/
def interp (fs : FS) (t : List Op) : FS := t.foldl applyOp fs

/-! ## Trace well-formedness -/

/-- Is this operation an `ensureDir`? -/
def isEnsure : Op → Bool
  | .ensureDir _ => true
  | _ => false

/-- Is this operation an rsync invocation? -/
def isRsync : Op → Bool
  | .rsync _ _ _ => true
  | _ => false

/-- `guardedAux prev t`: in `t`, every rsync invocation is immediately
preceded by an `ensureDir` (`prev` records whether the operation just before
`t` was one). -/
def guardedAux : Bool → List Op → Bool
  | _, [] => true
  | prev, op :: rest =>
    (if isRsync op then prev else true) && guardedAux (isEnsure op) rest

/-- Every rsync invocation in the trace is immediately preceded by an
`ensureDir`. -/
def rsyncGuarded (t : List Op) : Bool := guardedAux false t

/-! ## Side predicates -/

/-- A module name as validated by the configuration loader (spec §6: the
loader hands over "a validated set of modules with names"): it contains no
path separator and is not one of the special path components, so it denotes
a single path component. -/
def SimpleName (n : String) : Prop :=
  toPath n = [n] ∧ n ≠ "" ∧ n ≠ "." ∧ n ≠ ".."

instance (n : String) : Decidable (SimpleName n) := by
  unfold SimpleName; infer_instance

/-- An absolute, already-normalized directory path: it starts with the
separator and none of its later components is empty, `.` or `..`. -/
def CleanAbsPath (p : Path) : Prop :=
  p.head? = some "" ∧ 2 ≤ p.length ∧ ∀ c ∈ p.tail, c ≠ "" ∧ c ≠ "." ∧ c ≠ ".."

instance (p : Path) : Decidable (CleanAbsPath p) := by
  unfold CleanAbsPath; infer_instance

namespace BuildDir

/-- The rsync invocation `sync` issues for the given arguments. -/
def syncRsyncOp (b : BuildDir) (platform : String)
    (sourcePath destinationPath : Path) (withDelete : Bool) : Op :=
  Op.rsync (syncOpts withDelete b.buildDirPath)
    (stripWildcard (if platform == "win32" then toCygwinPath sourcePath else sourcePath))
    (stripWildcard (if platform == "win32" then toCygwinPath destinationPath else destinationPath))

end BuildDir

/-- Operations that never remove an existing file from any directory:
`ensureDir`, and rsync invocations without `--delete`. -/
def preservesFiles : Op → Prop
  | .ensureDir _ => True
  | .emptyDir _ => False
  | .rsync opts _ _ => "--delete" ∉ opts

/-! ## Concrete fixtures used by the witness theorems -/

/-- An environment in which every operation succeeds. -/
def envOkFx : Env := fun _ => none

/-- An environment in which every rsync invocation fails and everything
else succeeds. -/
def envRsyncFailFx : Env := fun op =>
  match op with
  | Op.rsync _ _ _ => some "rsync exited with code 1"
  | _ => none

/-- A concrete `BuildDir` as produced by `factory` for a project at
`/proj` with garden directory `/proj/.garden`. -/
def bFx : BuildDir :=
  ⟨toPath "/proj", toPath "/proj/.garden/build", toPath "/proj/.garden/build-metadata"⟩

/-- A concrete module config for `syncFromSrc`. -/
def mcFx : ModuleConfig := ⟨"mymod", "sub/mod"⟩

/-- A dependency with a valid copy spec followed by one whose target is
absolute. -/
def depMixedFx : BuildDependencyConfig :=
  ⟨"dep", none, some [⟨"out", "vendor"⟩, ⟨"x", "/etc/foo"⟩]⟩

/-- A module whose single dependency is `depMixedFx`. -/
def mMixedFx : Module := ⟨"mymod", ⟨[depMixedFx]⟩⟩

/-- A module whose single dependency's first copy spec has an absolute
source. -/
def mAbsFirstFx : Module := ⟨"mymod", ⟨[⟨"dep", none, some [⟨"/abs", "t"⟩]⟩]⟩⟩

/-- A dependency with one valid copy spec. -/
def depGoodFx : BuildDependencyConfig := ⟨"dep", none, some [⟨"out", "vendor"⟩]⟩

/-- A dependency carrying no copy list. -/
def depNoCopyFx : BuildDependencyConfig := ⟨"dep2", none, none⟩

/-- A module with one valid dependency copy spec. -/
def mDepFx : Module := ⟨"mymod", ⟨[depGoodFx]⟩⟩

/-- A concrete abstract filesystem: a stale file in the module's build
root, one file in its source directory. -/
def fsFx : FS := fun p =>
  if p = toPath "/proj/.garden/build/mymod" then ["stale"]
  else if p = toPath "/proj/sub/mod" then ["srcfile"]
  else []

/-! ## Basic lemmas about the sync options -/

theorem exclude_ne_delete (s : String) : "--exclude=" ++ s ≠ "--delete" := by
  intro h
  have hlen := congrArg String.length h
  have h10 : ("--exclude=" : String).length = 10 := rfl
  have h8 : ("--delete" : String).length = 8 := rfl
  rw [String.length_append, h10, h8] at hlen
  omega

theorem delete_mem_syncOpts_true (bd : Path) : "--delete" ∈ syncOpts true bd := by
  simp [syncOpts]

theorem delete_not_mem_syncOpts_false (bd : Path) : "--delete" ∉ syncOpts false bd := by
  intro h
  simp only [syncOpts, Bool.false_eq_true, if_false, List.append_nil, List.mem_cons,
    List.not_mem_nil, or_false] at h
  rcases h with h | h
  · exact absurd h (by decide)
  · exact exclude_ne_delete (renderPath bd) h.symm

theorem exclude_mem_syncOpts (w : Bool) (bd : Path) :
    ("--exclude=" ++ renderPath bd) ∈ syncOpts w bd := by
  cases w <;> simp [syncOpts]

/-! ## Trace characterization of the atomic operations -/

namespace BuildDir

theorem sync_cases_eq (env : Env) (b : BuildDir) (platform : String)
    (s d : Path) (w : Bool) :
    sync env b platform s d w =
      match env (Op.ensureDir (parseDir d)) with
      | some m =>
        ([Op.ensureDir (parseDir d)], .error (.opFailed (Op.ensureDir (parseDir d)) m))
      | none =>
        match env (syncRsyncOp b platform s d w) with
        | some m =>
          ([Op.ensureDir (parseDir d), syncRsyncOp b platform s d w],
            .error (.opFailed (syncRsyncOp b platform s d w) m))
        | none => ([Op.ensureDir (parseDir d), syncRsyncOp b platform s d w], .ok ()) := rfl

theorem buildPath_cases_eq (env : Env) (b : BuildDir) (n : String) :
    buildPath env b n =
      match env (Op.ensureDir (buildPathOf b n)) with
      | some m =>
        ([Op.ensureDir (buildPathOf b n)],
          .error (.opFailed (Op.ensureDir (buildPathOf b n)) m))
      | none => ([Op.ensureDir (buildPathOf b n)], .ok (buildPathOf b n)) := rfl

theorem buildPath_trace (env : Env) (b : BuildDir) (n : String) :
    (buildPath env b n).1 = [Op.ensureDir (buildPathOf b n)] := by
  rw [buildPath_cases_eq]
  cases env (Op.ensureDir (buildPathOf b n)) <;> rfl

theorem buildPath_ok (env : Env) (b : BuildDir) (n : String)
    (h : env (Op.ensureDir (buildPathOf b n)) = none) :
    buildPath env b n = ([Op.ensureDir (buildPathOf b n)], .ok (buildPathOf b n)) := by
  rw [buildPath_cases_eq, h]

theorem clear_cases_eq (env : Env) (b : BuildDir) :
    clear env b =
      match env (Op.emptyDir b.buildDirPath) with
      | some m =>
        ([Op.emptyDir b.buildDirPath], .error (.opFailed (Op.emptyDir b.buildDirPath) m))
      | none => ([Op.emptyDir b.buildDirPath], .ok ()) := rfl

theorem clear_trace (env : Env) (b : BuildDir) :
    (clear env b).1 = [Op.emptyDir b.buildDirPath] := by
  rw [clear_cases_eq]
  cases env (Op.emptyDir b.buildDirPath) <;> rfl

theorem sync_trace_cases (env : Env) (b : BuildDir) (platform : String)
    (s d : Path) (w : Bool) :
    (sync env b platform s d w).1 = [Op.ensureDir (parseDir d)] ∨
    (sync env b platform s d w).1 =
      [Op.ensureDir (parseDir d), syncRsyncOp b platform s d w] := by
  rw [sync_cases_eq]
  cases env (Op.ensureDir (parseDir d))
  · cases env (syncRsyncOp b platform s d w)
    · exact Or.inr rfl
    · exact Or.inr rfl
  · exact Or.inl rfl

theorem sync_head (env : Env) (b : BuildDir) (platform : String)
    (s d : Path) (w : Bool) :
    (sync env b platform s d w).1.head? = some (Op.ensureDir (parseDir d)) := by
  rcases sync_trace_cases env b platform s d w with h | h <;> rw [h] <;> rfl

theorem sync_rsync_mem {env : Env} {b : BuildDir} {platform : String}
    {s d : Path} {w : Bool} {opts : List String} {sp dp : Path}
    (h : Op.rsync opts sp dp ∈ (sync env b platform s d w).1) :
    Op.rsync opts sp dp = syncRsyncOp b platform s d w ∧
      opts = syncOpts w b.buildDirPath := by
  rcases sync_trace_cases env b platform s d w with ht | ht <;> rw [ht] at h
  · simp at h
  · simp only [List.mem_cons, List.not_mem_nil, or_false] at h
    rcases h with h | h
    · simp at h
    · refine ⟨h, ?_⟩
      have h2 := h
      unfold syncRsyncOp at h2
      injection h2 with ho hs hd <;> exact ho

theorem sync_ok (env : Env) (b : BuildDir) (platform : String) (s d : Path) (w : Bool)
    (h1 : env (Op.ensureDir (parseDir d)) = none)
    (h2 : env (syncRsyncOp b platform s d w) = none) :
    sync env b platform s d w =
      ([Op.ensureDir (parseDir d), syncRsyncOp b platform s d w], .ok ()) := by
  rw [sync_cases_eq, h1, h2]

theorem sync_ok_env {env : Env} {b : BuildDir} {platform : String}
    {s d : Path} {w : Bool}
    (h : (sync env b platform s d w).2 = .ok ()) :
    ∀ op ∈ (sync env b platform s d w).1, env op = none := by
  cases h1 : env (Op.ensureDir (parseDir d)) with
  | some m => rw [sync_cases_eq, h1] at h; simp at h
  | none =>
    cases h2 : env (syncRsyncOp b platform s d w) with
    | some m => rw [sync_cases_eq, h1, h2] at h; simp at h
    | none =>
      intro op hop
      rw [sync_cases_eq, h1, h2] at hop
      simp only [List.mem_cons, List.not_mem_nil, or_false] at hop
      rcases hop with rfl | rfl
      · exact h1
      · exact h2

theorem sync_fail {env : Env} {b : BuildDir} {platform : String}
    {s d : Path} {w : Bool} {op : Op} {m : String}
    (hop : op ∈ (sync env b platform s d w).1) (hm : env op = some m) :
    (sync env b platform s d w).2 = .error (.opFailed op m) := by
  cases h1 : env (Op.ensureDir (parseDir d)) with
  | some m1 =>
    rw [sync_cases_eq, h1] at hop ⊢
    simp only [List.mem_cons, List.not_mem_nil, or_false] at hop
    subst hop
    rw [hm] at h1
    cases h1 <;> rfl
  | none =>
    cases h2 : env (syncRsyncOp b platform s d w) with
    | some m2 =>
      rw [sync_cases_eq, h1, h2] at hop ⊢
      simp only [List.mem_cons, List.not_mem_nil, or_false] at hop
      rcases hop with rfl | rfl
      · rw [hm] at h1; cases h1
      · rw [hm] at h2
        cases h2 <;> rfl
    | none =>
      rw [sync_cases_eq, h1, h2] at hop
      simp only [List.mem_cons, List.not_mem_nil, or_false] at hop
      rcases hop with rfl | rfl
      · rw [hm] at h1; cases h1
      · rw [hm] at h2; cases h2

end BuildDir

/-! ## Guardedness lemmas -/

theorem guardedAux_mono {t : List Op} (h : guardedAux false t = true) (p : Bool) :
    guardedAux p t = true := by
  cases t with
  | nil => rfl
  | cons op rest =>
    simp only [guardedAux, Bool.and_eq_true] at h ⊢
    cases hrs : isRsync op with
    | false =>
      rw [hrs] at h
      simpa using h
    | true =>
      rw [hrs] at h
      simp at h

theorem guardedAux_append {t1 t2 : List Op} (p : Bool)
    (h1 : guardedAux p t1 = true) (h2 : guardedAux false t2 = true) :
    guardedAux p (t1 ++ t2) = true := by
  induction t1 generalizing p with
  | nil => simpa using guardedAux_mono h2 p
  | cons op rest ih =>
    simp only [List.cons_append, guardedAux, Bool.and_eq_true] at h1 ⊢
    exact ⟨h1.1, ih _ h1.2⟩

theorem rsyncGuarded_append {t1 t2 : List Op}
    (h1 : rsyncGuarded t1 = true) (h2 : rsyncGuarded t2 = true) :
    rsyncGuarded (t1 ++ t2) = true :=
  guardedAux_append false h1 h2

namespace BuildDir

theorem sync_guarded (env : Env) (b : BuildDir) (platform : String)
    (s d : Path) (w : Bool) :
    rsyncGuarded (sync env b platform s d w).1 = true := by
  rcases sync_trace_cases env b platform s d w with ht | ht <;> rw [ht] <;> rfl

theorem buildPath_guarded (env : Env) (b : BuildDir) (n : String) :
    rsyncGuarded (buildPath env b n).1 = true := by
  rw [buildPath_trace]
  rfl

end BuildDir

/-! ## Interpretation lemmas -/

theorem interp_nil (fs : FS) : interp fs [] = fs := rfl

theorem interp_cons (fs : FS) (op : Op) (t : List Op) :
    interp fs (op :: t) = interp (applyOp fs op) t := rfl

theorem interp_append (fs : FS) (t1 t2 : List Op) :
    interp fs (t1 ++ t2) = interp (interp fs t1) t2 := by
  simp [interp, List.foldl_append]

theorem applyOp_mono {fs : FS} {op : Op} (h : preservesFiles op)
    {p : Path} {x : String} (hx : x ∈ fs p) : x ∈ applyOp fs op p := by
  cases op with
  | ensureDir q => exact hx
  | emptyDir q => exact h.elim
  | rsync opts src dest =>
    by_cases hc : canonPath p = canonPath dest
    · have hd : "--delete" ∉ opts := h
      simp only [applyOp, if_pos hc, if_neg hd]
      exact List.mem_append_right _ hx
    · simpa only [applyOp, if_neg hc] using hx

theorem interp_mono {t : List Op} (h : ∀ op ∈ t, preservesFiles op)
    {fs : FS} {p : Path} {x : String} (hx : x ∈ fs p) : x ∈ interp fs t p := by
  induction t generalizing fs with
  | nil => exact hx
  | cons op rest ih =>
    exact ih (fun o ho => h o (List.mem_cons_of_mem _ ho))
      (applyOp_mono (h op (List.mem_cons_self _ _)) hx)

/-! ## lodash `zip` of a list with itself -/

theorem lodashZip_self {α : Type} (l : List α) :
    lodashZip l l = l.map (fun a => (some a, some a)) := by
  induction l with
  | nil => simp [lodashZip]
  | cons a t ih => simp [lodashZip, ih]

/-! ## Lemmas about `syncCopies` -/

namespace BuildDir

theorem syncCopies_rsync_opts (env : Env) (b : BuildDir) (platform : String) :
    ∀ (copies : List FileCopySpec) (sbp bp : Path) {opts : List String} {sp dp : Path},
      Op.rsync opts sp dp ∈ (syncCopies env b platform sbp bp copies).1 →
      opts = syncOpts false b.buildDirPath := by
  intro copies
  induction copies with
  | nil =>
    intro sbp bp opts sp dp h
    simp [syncCopies] at h
  | cons copy rest ih =>
    intro sbp bp opts sp dp h
    simp only [syncCopies] at h
    by_cases ha1 : isAbsolutePath (toPath copy.source) = true
    · rw [if_pos ha1] at h
      simp at h
    · rw [if_neg ha1] at h
      by_cases ha2 : isAbsolutePath (toPath copy.target) = true
      · rw [if_pos ha2] at h
        simp at h
      · rw [if_neg ha2] at h
        rcases hs : sync env b platform (join sbp (toPath copy.source))
            (join bp (toPath copy.target)) false with ⟨t, r⟩
        rw [hs] at h
        cases r with
        | error e =>
          have hmem : Op.rsync opts sp dp ∈
              (sync env b platform (join sbp (toPath copy.source))
                (join bp (toPath copy.target)) false).1 := by
            rw [hs]; exact h
          exact (sync_rsync_mem hmem).2
        | ok u =>
          rcases List.mem_append.mp h with h' | h'
          · have hmem : Op.rsync opts sp dp ∈
                (sync env b platform (join sbp (toPath copy.source))
                  (join bp (toPath copy.target)) false).1 := by
              rw [hs]; exact h'
            exact (sync_rsync_mem hmem).2
          · exact ih sbp bp h'

theorem syncCopies_guarded (env : Env) (b : BuildDir) (platform : String) :
    ∀ (copies : List FileCopySpec) (sbp bp : Path),
      rsyncGuarded (syncCopies env b platform sbp bp copies).1 = true := by
  intro copies
  induction copies with
  | nil => intro sbp bp; rfl
  | cons copy rest ih =>
    intro sbp bp
    simp only [syncCopies]
    by_cases ha1 : isAbsolutePath (toPath copy.source) = true
    · rw [if_pos ha1]; rfl
    · rw [if_neg ha1]
      by_cases ha2 : isAbsolutePath (toPath copy.target) = true
      · rw [if_pos ha2]; rfl
      · rw [if_neg ha2]
        rcases hs : sync env b platform (join sbp (toPath copy.source))
            (join bp (toPath copy.target)) false with ⟨t, r⟩
        have hg : rsyncGuarded t = true := by
          have := sync_guarded env b platform (join sbp (toPath copy.source))
            (join bp (toPath copy.target)) false
          rw [hs] at this
          exact this
        cases r with
        | error e => exact hg
        | ok u => exact rsyncGuarded_append hg (ih sbp bp)

theorem syncCopies_ok_env (env : Env) (b : BuildDir) (platform : String) :
    ∀ (copies : List FileCopySpec) (sbp bp : Path),
      (syncCopies env b platform sbp bp copies).2 = .ok () →
      ∀ op ∈ (syncCopies env b platform sbp bp copies).1, env op = none := by
  intro copies
  induction copies with
  | nil =>
    intro sbp bp hok op hop
    simp [syncCopies] at hop
  | cons copy rest ih =>
    intro sbp bp hok op hop
    simp only [syncCopies] at hok hop
    by_cases ha1 : isAbsolutePath (toPath copy.source) = true
    · rw [if_pos ha1] at hop
      simp at hop
    · rw [if_neg ha1] at hok hop
      by_cases ha2 : isAbsolutePath (toPath copy.target) = true
      · rw [if_pos ha2] at hop
        simp at hop
      · rw [if_neg ha2] at hok hop
        rcases hs : sync env b platform (join sbp (toPath copy.source))
            (join bp (toPath copy.target)) false with ⟨t, r⟩
        rw [hs] at hok hop
        cases r with
        | error e => cases hok
        | ok u =>
          rcases List.mem_append.mp hop with h' | h'
          · have : (sync env b platform (join sbp (toPath copy.source))
                (join bp (toPath copy.target)) false).2 = .ok () := by
              rw [hs]
            refine sync_ok_env this op ?_
            rw [hs]
            exact h'
          · exact ih sbp bp hok op h'

theorem syncCopies_fail (env : Env) (b : BuildDir) (platform : String) :
    ∀ (copies : List FileCopySpec) (sbp bp : Path) {op : Op} {m : String},
      op ∈ (syncCopies env b platform sbp bp copies).1 → env op = some m →
      (syncCopies env b platform sbp bp copies).2 = .error (.opFailed op m) := by
  intro copies
  induction copies with
  | nil =>
    intro sbp bp op m hop hm
    simp [syncCopies] at hop
  | cons copy rest ih =>
    intro sbp bp op m hop hm
    simp only [syncCopies] at hop ⊢
    by_cases ha1 : isAbsolutePath (toPath copy.source) = true
    · rw [if_pos ha1] at hop
      simp at hop
    · rw [if_neg ha1] at hop ⊢
      by_cases ha2 : isAbsolutePath (toPath copy.target) = true
      · rw [if_pos ha2] at hop
        simp at hop
      · rw [if_neg ha2] at hop ⊢
        rcases hs : sync env b platform (join sbp (toPath copy.source))
            (join bp (toPath copy.target)) false with ⟨t, r⟩
        rw [hs] at hop
        cases r with
        | error e =>
          have hmem : op ∈ (sync env b platform (join sbp (toPath copy.source))
              (join bp (toPath copy.target)) false).1 := by
            rw [hs]; exact hop
          have := sync_fail hmem hm
          rw [hs] at this
          simpa using this
        | ok u =>
          rcases List.mem_append.mp hop with h' | h'
          · have : (sync env b platform (join sbp (toPath copy.source))
                (join bp (toPath copy.target)) false).2 = .ok () := by
              rw [hs]
            have hnone := sync_ok_env this op (by rw [hs]; exact h')
            rw [hnone] at hm
            cases hm
          · exact ih sbp bp h' hm

theorem syncCopies_ok_all_rel (env : Env) (b : BuildDir) (platform : String)
    (henv : ∀ op, env op = none) :
    ∀ (copies : List FileCopySpec) (sbp bp : Path),
      (∀ c ∈ copies, isAbsolutePath (toPath c.source) = false ∧
        isAbsolutePath (toPath c.target) = false) →
      (syncCopies env b platform sbp bp copies).2 = .ok () := by
  intro copies
  induction copies with
  | nil => intro sbp bp hrel; rfl
  | cons copy rest ih =>
    intro sbp bp hrel
    have hc := hrel copy (List.mem_cons_self _ _)
    simp only [syncCopies]
    rw [if_neg (by rw [hc.1]; simp), if_neg (by rw [hc.2]; simp)]
    rw [sync_ok env b platform _ _ false (henv _) (henv _)]
    exact ih sbp bp (fun c hcr => hrel c (List.mem_cons_of_mem _ hcr))

theorem syncCopies_err_abs (env : Env) (b : BuildDir) (platform : String)
    (henv : ∀ op, env op = none) :
    ∀ (copies : List FileCopySpec) (sbp bp : Path),
      (∃ c ∈ copies, isAbsolutePath (toPath c.source) = true ∨
        isAbsolutePath (toPath c.target) = true) →
      ∃ msg, (syncCopies env b platform sbp bp copies).2 = .error (.configError msg) := by
  intro copies
  induction copies with
  | nil =>
    intro sbp bp h
    simp at h
  | cons copy rest ih =>
    intro sbp bp h
    simp only [syncCopies]
    by_cases ha1 : isAbsolutePath (toPath copy.source) = true
    · rw [if_pos ha1]
      exact ⟨_, rfl⟩
    · rw [if_neg ha1]
      by_cases ha2 : isAbsolutePath (toPath copy.target) = true
      · rw [if_pos ha2]
        exact ⟨_, rfl⟩
      · rw [if_neg ha2]
        rw [sync_ok env b platform _ _ false (henv _) (henv _)]
        refine ih sbp bp ?_
        rcases h with ⟨c, hc, habs⟩
        rcases List.mem_cons.mp hc with rfl | hc
        · rcases habs with habs | habs
          · exact absurd habs ha1
          · exact absurd habs ha2
        · exact ⟨c, hc, habs⟩

end BuildDir

/-! ## Lemmas about `syncDeps` and the top-level staging operations -/

namespace BuildDir

theorem syncDeps_cons_fst_none (env : Env) (b : BuildDir) (platform : String)
    (bp : Path) (odc : Option BuildDependencyConfig) (rest) :
    syncDeps env b platform bp ((none, odc) :: rest) =
      syncDeps env b platform bp rest := by
  cases odc <;> rfl

theorem syncDeps_cons_snd_none (env : Env) (b : BuildDir) (platform : String)
    (bp : Path) (sm : BuildDependencyConfig) (rest) :
    syncDeps env b platform bp ((some sm, none) :: rest) =
      syncDeps env b platform bp rest := rfl

theorem syncDeps_cons_nocopy (env : Env) (b : BuildDir) (platform : String)
    (bp : Path) (sm dc : BuildDependencyConfig) (rest) (hc : dc.copy = none) :
    syncDeps env b platform bp ((some sm, some dc) :: rest) =
      syncDeps env b platform bp rest := by
  simp only [syncDeps, hc]

theorem syncDeps_cons_copy (env : Env) (b : BuildDir) (platform : String)
    (bp : Path) (sm dc : BuildDependencyConfig) (copies : List FileCopySpec)
    (rest) (hc : dc.copy = some copies) :
    syncDeps env b platform bp ((some sm, some dc) :: rest) =
      match buildPath env b (getModuleKey sm.name sm.plugin) with
      | (t, .error e) => (t, .error e)
      | (t, .ok sourceBuildPath) =>
        match syncCopies env b platform sourceBuildPath bp copies with
        | (t2, .error e) => (t ++ t2, .error e)
        | (t2, .ok _) =>
          (t ++ t2 ++ (syncDeps env b platform bp rest).1,
            (syncDeps env b platform bp rest).2) := by
  simp only [syncDeps, hc]

theorem syncDeps_cons_copy_bpErr {env : Env} {b : BuildDir} {platform : String}
    {bp : Path} {sm dc : BuildDependencyConfig} {copies : List FileCopySpec}
    {rest} {t : List Op} {e : GardenError}
    (hc : dc.copy = some copies)
    (hbp : buildPath env b (getModuleKey sm.name sm.plugin) = (t, .error e)) :
    syncDeps env b platform bp ((some sm, some dc) :: rest) = (t, .error e) := by
  simp only [syncDeps, hc, hbp]

theorem syncDeps_cons_copy_scErr {env : Env} {b : BuildDir} {platform : String}
    {bp : Path} {sm dc : BuildDependencyConfig} {copies : List FileCopySpec}
    {rest} {t t2 : List Op} {sbp : Path} {e : GardenError}
    (hc : dc.copy = some copies)
    (hbp : buildPath env b (getModuleKey sm.name sm.plugin) = (t, .ok sbp))
    (hsc : syncCopies env b platform sbp bp copies = (t2, .error e)) :
    syncDeps env b platform bp ((some sm, some dc) :: rest) = (t ++ t2, .error e) := by
  simp only [syncDeps, hc, hbp, hsc]

theorem syncDeps_cons_copy_scOk {env : Env} {b : BuildDir} {platform : String}
    {bp : Path} {sm dc : BuildDependencyConfig} {copies : List FileCopySpec}
    {rest} {t t2 : List Op} {sbp : Path} {u : Unit}
    (hc : dc.copy = some copies)
    (hbp : buildPath env b (getModuleKey sm.name sm.plugin) = (t, .ok sbp))
    (hsc : syncCopies env b platform sbp bp copies = (t2, .ok u)) :
    syncDeps env b platform bp ((some sm, some dc) :: rest) =
      (t ++ t2 ++ (syncDeps env b platform bp rest).1,
        (syncDeps env b platform bp rest).2) := by
  simp only [syncDeps, hc, hbp, hsc]

theorem syncFromSrc_bpErr {env : Env} {b : BuildDir} {platform : String}
    {mc : ModuleConfig} {t : List Op} {e : GardenError}
    (hbp : buildPath env b mc.name = (t, .error e)) :
    syncFromSrc env b platform mc = (t, .error e) := by
  simp only [syncFromSrc, hbp]

theorem syncFromSrc_bpOk {env : Env} {b : BuildDir} {platform : String}
    {mc : ModuleConfig} {t : List Op} {bp : Path}
    (hbp : buildPath env b mc.name = (t, .ok bp)) :
    syncFromSrc env b platform mc =
      (t ++ (sync env b platform
          (resolve b.projectRoot (toPath mc.path) ++ [""]) bp true).1,
        (sync env b platform
          (resolve b.projectRoot (toPath mc.path) ++ [""]) bp true).2) := by
  simp only [syncFromSrc, hbp]

theorem syncDependencyProducts_bpErr {env : Env} {b : BuildDir} {platform : String}
    {m : Module} {t : List Op} {e : GardenError}
    (hbp : buildPath env b m.name = (t, .error e)) :
    syncDependencyProducts env b platform m = (t, .error e) := by
  simp only [syncDependencyProducts, hbp]

theorem syncDependencyProducts_bpOk {env : Env} {b : BuildDir} {platform : String}
    {m : Module} {t : List Op} {bp : Path}
    (hbp : buildPath env b m.name = (t, .ok bp)) :
    syncDependencyProducts env b platform m =
      (t ++ (syncDeps env b platform bp
          (lodashZip m.build.dependencies m.build.dependencies)).1,
        (syncDeps env b platform bp
          (lodashZip m.build.dependencies m.build.dependencies)).2) := by
  simp only [syncDependencyProducts, hbp]

/-- The two possible shapes of a `buildPath` call's outcome. -/
theorem buildPath_shape (env : Env) (b : BuildDir) (n : String) :
    buildPath env b n = ([Op.ensureDir (buildPathOf b n)], .ok (buildPathOf b n)) ∨
      ∃ m, buildPath env b n =
        ([Op.ensureDir (buildPathOf b n)],
          .error (.opFailed (Op.ensureDir (buildPathOf b n)) m)) := by
  cases he : env (Op.ensureDir (buildPathOf b n)) with
  | none => exact Or.inl (by rw [buildPath_cases_eq, he])
  | some m => exact Or.inr ⟨m, by rw [buildPath_cases_eq, he]⟩

theorem sync_mem {env : Env} {b : BuildDir} {platform : String}
    {s d : Path} {w : Bool} {op : Op} (h : op ∈ (sync env b platform s d w).1) :
    op = Op.ensureDir (parseDir d) ∨ op = syncRsyncOp b platform s d w := by
  rcases sync_trace_cases env b platform s d w with ht | ht <;> rw [ht] at h
  · exact Or.inl (by simpa using h)
  · simpa using h

theorem syncCopies_mem (env : Env) (b : BuildDir) (platform : String) :
    ∀ (copies : List FileCopySpec) (sbp bp : Path) {op : Op},
      op ∈ (syncCopies env b platform sbp bp copies).1 →
      (∃ q, op = Op.ensureDir q) ∨
        (∃ sp dp, op = Op.rsync (syncOpts false b.buildDirPath) sp dp) := by
  intro copies
  induction copies with
  | nil =>
    intro sbp bp op h
    simp [syncCopies] at h
  | cons copy rest ih =>
    intro sbp bp op h
    simp only [syncCopies] at h
    by_cases ha1 : isAbsolutePath (toPath copy.source) = true
    · rw [if_pos ha1] at h
      simp at h
    · rw [if_neg ha1] at h
      by_cases ha2 : isAbsolutePath (toPath copy.target) = true
      · rw [if_pos ha2] at h
        simp at h
      · rw [if_neg ha2] at h
        rcases hs : sync env b platform (join sbp (toPath copy.source))
            (join bp (toPath copy.target)) false with ⟨t, r⟩
        rw [hs] at h
        have hofsync : ∀ o ∈ t,
            (∃ q, o = Op.ensureDir q) ∨
              (∃ sp dp, o = Op.rsync (syncOpts false b.buildDirPath) sp dp) := by
          intro o ho
          have hmem : o ∈ (sync env b platform (join sbp (toPath copy.source))
              (join bp (toPath copy.target)) false).1 := by
            rw [hs]; exact ho
          rcases sync_mem hmem with rfl | rfl
          · exact Or.inl ⟨_, rfl⟩
          · exact Or.inr ⟨_, _, rfl⟩
        cases r with
        | error e => exact hofsync op h
        | ok u =>
          rcases List.mem_append.mp h with h' | h'
          · exact hofsync op h'
          · exact ih sbp bp h'

theorem syncDeps_mem (env : Env) (b : BuildDir) (platform : String) :
    ∀ (deps : List (Option BuildDependencyConfig × Option BuildDependencyConfig))
      (bp : Path) {op : Op},
      op ∈ (syncDeps env b platform bp deps).1 →
      (∃ q, op = Op.ensureDir q) ∨
        (∃ sp dp, op = Op.rsync (syncOpts false b.buildDirPath) sp dp) := by
  intro deps
  induction deps with
  | nil =>
    intro bp op h
    simp [syncDeps] at h
  | cons hd rest ih =>
    rcases hd with ⟨osm, odc⟩
    intro bp op h
    cases osm with
    | none =>
      rw [syncDeps_cons_fst_none] at h
      exact ih bp h
    | some sm =>
      cases odc with
      | none =>
        rw [syncDeps_cons_snd_none] at h
        exact ih bp h
      | some dc =>
        cases hc : dc.copy with
        | none =>
          rw [syncDeps_cons_nocopy env b platform bp sm dc rest hc] at h
          exact ih bp h
        | some copies =>
          rcases buildPath_shape env b (getModuleKey sm.name sm.plugin) with hbp | ⟨me, hbp⟩
          · rcases hsc : syncCopies env b platform
                (buildPathOf b (getModuleKey sm.name sm.plugin)) bp copies with ⟨t2, rc⟩
            have hmemc : ∀ o ∈ t2,
                (∃ q, o = Op.ensureDir q) ∨
                  (∃ sp dp, o = Op.rsync (syncOpts false b.buildDirPath) sp dp) := by
              intro o ho
              exact syncCopies_mem env b platform copies
                (buildPathOf b (getModuleKey sm.name sm.plugin)) bp
                (by rw [hsc]; exact ho)
            cases rc with
            | error e =>
              have ht : (syncDeps env b platform bp ((some sm, some dc) :: rest)).1 =
                  [Op.ensureDir (buildPathOf b (getModuleKey sm.name sm.plugin))] ++ t2 := by
                rw [syncDeps_cons_copy_scErr hc hbp hsc]
              rw [ht] at h
              rcases List.mem_append.mp h with h' | h'
              · exact Or.inl ⟨_, by simpa using h'⟩
              · exact hmemc op h'
            | ok u =>
              have ht : (syncDeps env b platform bp ((some sm, some dc) :: rest)).1 =
                  [Op.ensureDir (buildPathOf b (getModuleKey sm.name sm.plugin))] ++ t2 ++
                    (syncDeps env b platform bp rest).1 := by
                rw [syncDeps_cons_copy_scOk hc hbp hsc]
              rw [ht] at h
              rcases List.mem_append.mp h with h' | h'
              · rcases List.mem_append.mp h' with h2 | h2
                · exact Or.inl ⟨_, by simpa using h2⟩
                · exact hmemc op h2
              · exact ih bp h'
          · have ht : (syncDeps env b platform bp ((some sm, some dc) :: rest)).1 =
                [Op.ensureDir (buildPathOf b (getModuleKey sm.name sm.plugin))] := by
              rw [syncDeps_cons_copy_bpErr hc hbp]
            rw [ht] at h
            exact Or.inl ⟨_, by simpa using h⟩

theorem syncFromSrc_mem {env : Env} {b : BuildDir} {platform : String}
    {mc : ModuleConfig} {op : Op} (h : op ∈ (syncFromSrc env b platform mc).1) :
    (∃ q, op = Op.ensureDir q) ∨
      (∃ sp dp, op = Op.rsync (syncOpts true b.buildDirPath) sp dp) := by
  rcases buildPath_shape env b mc.name with hbp | ⟨me, hbp⟩
  · have ht : (syncFromSrc env b platform mc).1 =
        [Op.ensureDir (buildPathOf b mc.name)] ++
          (sync env b platform (resolve b.projectRoot (toPath mc.path) ++ [""])
            (buildPathOf b mc.name) true).1 := by
      rw [syncFromSrc_bpOk hbp]
    rw [ht] at h
    rcases List.mem_append.mp h with h' | h'
    · exact Or.inl ⟨_, by simpa using h'⟩
    · rcases sync_mem h' with rfl | rfl
      · exact Or.inl ⟨_, rfl⟩
      · exact Or.inr ⟨_, _, rfl⟩
  · have ht : (syncFromSrc env b platform mc).1 =
        [Op.ensureDir (buildPathOf b mc.name)] := by
      rw [syncFromSrc_bpErr hbp]
    rw [ht] at h
    exact Or.inl ⟨_, by simpa using h⟩

theorem syncDependencyProducts_mem {env : Env} {b : BuildDir} {platform : String}
    {m : Module} {op : Op} (h : op ∈ (syncDependencyProducts env b platform m).1) :
    (∃ q, op = Op.ensureDir q) ∨
      (∃ sp dp, op = Op.rsync (syncOpts false b.buildDirPath) sp dp) := by
  rcases buildPath_shape env b m.name with hbp | ⟨me, hbp⟩
  · have ht : (syncDependencyProducts env b platform m).1 =
        [Op.ensureDir (buildPathOf b m.name)] ++
          (syncDeps env b platform (buildPathOf b m.name)
            (lodashZip m.build.dependencies m.build.dependencies)).1 := by
      rw [syncDependencyProducts_bpOk hbp]
    rw [ht] at h
    rcases List.mem_append.mp h with h' | h'
    · exact Or.inl ⟨_, by simpa using h'⟩
    · exact syncDeps_mem env b platform _ _ h'
  · have ht : (syncDependencyProducts env b platform m).1 =
        [Op.ensureDir (buildPathOf b m.name)] := by
      rw [syncDependencyProducts_bpErr hbp]
    rw [ht] at h
    exact Or.inl ⟨_, by simpa using h⟩

theorem buildPath_ok_env {env : Env} {b : BuildDir} {n : String} {t : List Op}
    {bp : Path} (h : buildPath env b n = (t, .ok bp)) :
    env (Op.ensureDir (buildPathOf b n)) = none := by
  cases he : env (Op.ensureDir (buildPathOf b n)) with
  | none => rfl
  | some m =>
    rw [buildPath_cases_eq, he] at h
    cases h

theorem syncCopies_head_abs (env : Env) (b : BuildDir) (platform : String)
    (sbp bp : Path) (c : FileCopySpec) (cs : List FileCopySpec)
    (habs : isAbsolutePath (toPath c.source) = true ∨
      isAbsolutePath (toPath c.target) = true) :
    ∃ e, syncCopies env b platform sbp bp (c :: cs) = ([], .error (.configError e)) := by
  by_cases h1 : isAbsolutePath (toPath c.source) = true
  · exact ⟨"Source path in build dependency copy spec must be a relative path",
      by simp only [syncCopies, if_pos h1]⟩
  · have h2 : isAbsolutePath (toPath c.target) = true := habs.resolve_left h1
    exact ⟨"Target path in build dependency copy spec must be a relative path",
      by simp only [syncCopies, if_neg h1, if_pos h2]⟩

theorem syncDeps_guarded (env : Env) (b : BuildDir) (platform : String) :
    ∀ (deps : List (Option BuildDependencyConfig × Option BuildDependencyConfig))
      (bp : Path), rsyncGuarded (syncDeps env b platform bp deps).1 = true := by
  intro deps
  induction deps with
  | nil => intro bp; rfl
  | cons hd rest ih =>
    rcases hd with ⟨osm, odc⟩
    intro bp
    cases osm with
    | none => rw [syncDeps_cons_fst_none]; exact ih bp
    | some sm =>
      cases odc with
      | none => rw [syncDeps_cons_snd_none]; exact ih bp
      | some dc =>
        cases hc : dc.copy with
        | none =>
          rw [syncDeps_cons_nocopy env b platform bp sm dc rest hc]
          exact ih bp
        | some copies =>
          rcases buildPath_shape env b (getModuleKey sm.name sm.plugin) with hbp | ⟨me, hbp⟩
          · rcases hsc : syncCopies env b platform
                (buildPathOf b (getModuleKey sm.name sm.plugin)) bp copies with ⟨t2, rc⟩
            have hg2 : rsyncGuarded t2 = true := by
              have := syncCopies_guarded env b platform copies
                (buildPathOf b (getModuleKey sm.name sm.plugin)) bp
              rw [hsc] at this
              exact this
            cases rc with
            | error e =>
              have ht : (syncDeps env b platform bp ((some sm, some dc) :: rest)).1 =
                  [Op.ensureDir (buildPathOf b (getModuleKey sm.name sm.plugin))] ++ t2 := by
                rw [syncDeps_cons_copy_scErr hc hbp hsc]
              rw [ht]
              exact rsyncGuarded_append rfl hg2
            | ok u =>
              have ht : (syncDeps env b platform bp ((some sm, some dc) :: rest)).1 =
                  [Op.ensureDir (buildPathOf b (getModuleKey sm.name sm.plugin))] ++ t2 ++
                    (syncDeps env b platform bp rest).1 := by
                rw [syncDeps_cons_copy_scOk hc hbp hsc]
              rw [ht]
              exact rsyncGuarded_append (rsyncGuarded_append rfl hg2) (ih bp)
          · have ht : (syncDeps env b platform bp ((some sm, some dc) :: rest)).1 =
                [Op.ensureDir (buildPathOf b (getModuleKey sm.name sm.plugin))] := by
              rw [syncDeps_cons_copy_bpErr hc hbp]
            rw [ht]
            rfl

theorem syncFromSrc_guarded (env : Env) (b : BuildDir) (platform : String)
    (mc : ModuleConfig) : rsyncGuarded (syncFromSrc env b platform mc).1 = true := by
  rcases buildPath_shape env b mc.name with hbp | ⟨me, hbp⟩
  · have ht : (syncFromSrc env b platform mc).1 =
        [Op.ensureDir (buildPathOf b mc.name)] ++
          (sync env b platform (resolve b.projectRoot (toPath mc.path) ++ [""])
            (buildPathOf b mc.name) true).1 := by
      rw [syncFromSrc_bpOk hbp]
    rw [ht]
    exact rsyncGuarded_append rfl (sync_guarded env b platform _ _ true)
  · have ht : (syncFromSrc env b platform mc).1 =
        [Op.ensureDir (buildPathOf b mc.name)] := by
      rw [syncFromSrc_bpErr hbp]
    rw [ht]
    rfl

theorem syncDependencyProducts_guarded (env : Env) (b : BuildDir) (platform : String)
    (m : Module) : rsyncGuarded (syncDependencyProducts env b platform m).1 = true := by
  rcases buildPath_shape env b m.name with hbp | ⟨me, hbp⟩
  · have ht : (syncDependencyProducts env b platform m).1 =
        [Op.ensureDir (buildPathOf b m.name)] ++
          (syncDeps env b platform (buildPathOf b m.name)
            (lodashZip m.build.dependencies m.build.dependencies)).1 := by
      rw [syncDependencyProducts_bpOk hbp]
    rw [ht]
    exact rsyncGuarded_append rfl (syncDeps_guarded env b platform _ _)
  · have ht : (syncDependencyProducts env b platform m).1 =
        [Op.ensureDir (buildPathOf b m.name)] := by
      rw [syncDependencyProducts_bpErr hbp]
    rw [ht]
    rfl

theorem syncDeps_ok_env (env : Env) (b : BuildDir) (platform : String) :
    ∀ (deps : List (Option BuildDependencyConfig × Option BuildDependencyConfig))
      (bp : Path),
      (syncDeps env b platform bp deps).2 = .ok () →
      ∀ op ∈ (syncDeps env b platform bp deps).1, env op = none := by
  intro deps
  induction deps with
  | nil =>
    intro bp hok op hop
    simp [syncDeps] at hop
  | cons hd rest ih =>
    rcases hd with ⟨osm, odc⟩
    intro bp hok op hop
    cases osm with
    | none =>
      rw [syncDeps_cons_fst_none] at hok hop
      exact ih bp hok op hop
    | some sm =>
      cases odc with
      | none =>
        rw [syncDeps_cons_snd_none] at hok hop
        exact ih bp hok op hop
      | some dc =>
        cases hc : dc.copy with
        | none =>
          rw [syncDeps_cons_nocopy env b platform bp sm dc rest hc] at hok hop
          exact ih bp hok op hop
        | some copies =>
          rcases buildPath_shape env b (getModuleKey sm.name sm.plugin) with hbp | ⟨me, hbp⟩
          · rcases hsc : syncCopies env b platform
                (buildPathOf b (getModuleKey sm.name sm.plugin)) bp copies with ⟨t2, rc⟩
            cases rc with
            | error e =>
              rw [syncDeps_cons_copy_scErr hc hbp hsc] at hok
              cases hok
            | ok u =>
              cases u
              rw [syncDeps_cons_copy_scOk hc hbp hsc] at hok hop
              have hc2 : ∀ o ∈ t2, env o = none := by
                intro o ho
                refine syncCopies_ok_env env b platform copies
                  (buildPathOf b (getModuleKey sm.name sm.plugin)) bp ?_ o ?_
                · rw [hsc]
                · rw [hsc]; exact ho
              rcases List.mem_append.mp hop with h' | h'
              · rcases List.mem_append.mp h' with h2 | h2
                · have : op = Op.ensureDir (buildPathOf b (getModuleKey sm.name sm.plugin)) := by
                    simpa using h2
                  rw [this]
                  exact buildPath_ok_env hbp
                · exact hc2 op h2
              · exact ih bp hok op h'
          · rw [syncDeps_cons_copy_bpErr hc hbp] at hok
            cases hok

theorem syncDeps_fail (env : Env) (b : BuildDir) (platform : String) :
    ∀ (deps : List (Option BuildDependencyConfig × Option BuildDependencyConfig))
      (bp : Path) {op : Op} {m : String},
      op ∈ (syncDeps env b platform bp deps).1 → env op = some m →
      (syncDeps env b platform bp deps).2 = .error (.opFailed op m) := by
  intro deps
  induction deps with
  | nil =>
    intro bp op m hop hm
    simp [syncDeps] at hop
  | cons hd rest ih =>
    rcases hd with ⟨osm, odc⟩
    intro bp op m hop hm
    cases osm with
    | none =>
      rw [syncDeps_cons_fst_none] at hop ⊢
      exact ih bp hop hm
    | some sm =>
      cases odc with
      | none =>
        rw [syncDeps_cons_snd_none] at hop ⊢
        exact ih bp hop hm
      | some dc =>
        cases hc : dc.copy with
        | none =>
          rw [syncDeps_cons_nocopy env b platform bp sm dc rest hc] at hop ⊢
          exact ih bp hop hm
        | some copies =>
          rcases buildPath_shape env b (getModuleKey sm.name sm.plugin) with hbp | ⟨me, hbp⟩
          · rcases hsc : syncCopies env b platform
                (buildPathOf b (getModuleKey sm.name sm.plugin)) bp copies with ⟨t2, rc⟩
            cases rc with
            | error e =>
              rw [syncDeps_cons_copy_scErr hc hbp hsc] at hop ⊢
              rcases List.mem_append.mp hop with h' | h'
              · have heq : op = Op.ensureDir (buildPathOf b (getModuleKey sm.name sm.plugin)) := by
                  simpa using h'
                rw [heq] at hm
                rw [buildPath_ok_env hbp] at hm
                cases hm
              · have hmem2 : op ∈ (syncCopies env b platform
                    (buildPathOf b (getModuleKey sm.name sm.plugin)) bp copies).1 := by
                  rw [hsc]; exact h'
                have := syncCopies_fail env b platform copies
                  (buildPathOf b (getModuleKey sm.name sm.plugin)) bp hmem2 hm
                rw [hsc] at this
                simpa using this
            | ok u =>
              cases u
              rw [syncDeps_cons_copy_scOk hc hbp hsc] at hop ⊢
              rcases List.mem_append.mp hop with h' | h'
              · rcases List.mem_append.mp h' with h2 | h2
                · have heq : op = Op.ensureDir (buildPathOf b (getModuleKey sm.name sm.plugin)) := by
                    simpa using h2
                  rw [heq] at hm
                  rw [buildPath_ok_env hbp] at hm
                  cases hm
                · have := syncCopies_ok_env env b platform copies
                    (buildPathOf b (getModuleKey sm.name sm.plugin)) bp
                    (by rw [hsc]) op (by rw [hsc]; exact h2)
                  rw [this] at hm
                  cases hm
              · exact ih bp h' hm
          · rw [syncDeps_cons_copy_bpErr hc hbp] at hop ⊢
            have heq : op = Op.ensureDir (buildPathOf b (getModuleKey sm.name sm.plugin)) := by
              simpa using hop
            subst heq
            cases he : env (Op.ensureDir (buildPathOf b (getModuleKey sm.name sm.plugin))) with
            | none => rw [he] at hm; cases hm
            | some m2 =>
              rw [buildPath_cases_eq, he] at hbp
              rw [he] at hm
              cases hm
              cases hbp
              rfl

theorem syncDeps_err_abs (env : Env) (b : BuildDir) (platform : String)
    (henv : ∀ op, env op = none) :
    ∀ (deps : List BuildDependencyConfig) (bp : Path),
      (∃ dep ∈ deps, ∃ c ∈ dep.copy.getD [],
        isAbsolutePath (toPath c.source) = true ∨
          isAbsolutePath (toPath c.target) = true) →
      ∃ msg, (syncDeps env b platform bp
        (deps.map (fun a => (some a, some a)))).2 = .error (.configError msg) := by
  intro deps
  induction deps with
  | nil =>
    intro bp h
    simp at h
  | cons d rest ih =>
    intro bp h
    rw [List.map_cons]
    have hbp : buildPath env b (getModuleKey d.name d.plugin) =
        ([Op.ensureDir (buildPathOf b (getModuleKey d.name d.plugin))],
          .ok (buildPathOf b (getModuleKey d.name d.plugin))) :=
      buildPath_ok env b _ (henv _)
    cases hc : d.copy with
    | none =>
      rw [syncDeps_cons_nocopy env b platform bp d d _ hc]
      refine ih bp ?_
      rcases h with ⟨dep, hdep, c, hcd, habs⟩
      rcases List.mem_cons.mp hdep with rfl | hdep
      · rw [hc] at hcd
        simp at hcd
      · exact ⟨dep, hdep, c, hcd, habs⟩
    | some copies =>
      by_cases hex : ∃ c ∈ copies, isAbsolutePath (toPath c.source) = true ∨
          isAbsolutePath (toPath c.target) = true
      · rcases syncCopies_err_abs env b platform henv copies
          (buildPathOf b (getModuleKey d.name d.plugin)) bp hex with ⟨msg, hmsg⟩
        rcases hsc : syncCopies env b platform
            (buildPathOf b (getModuleKey d.name d.plugin)) bp copies with ⟨t2, rc⟩
        rw [hsc] at hmsg
        simp only at hmsg
        rw [hmsg] at hsc
        rw [syncDeps_cons_copy_scErr hc hbp hsc]
        exact ⟨msg, rfl⟩
      · have hrel : ∀ c ∈ copies, isAbsolutePath (toPath c.source) = false ∧
            isAbsolutePath (toPath c.target) = false := by
          intro c hcc
          constructor
          · cases hval : isAbsolutePath (toPath c.source)
            · rfl
            · exact absurd ⟨c, hcc, Or.inl hval⟩ hex
          · cases hval : isAbsolutePath (toPath c.target)
            · rfl
            · exact absurd ⟨c, hcc, Or.inr hval⟩ hex
        have hok := syncCopies_ok_all_rel env b platform henv copies
          (buildPathOf b (getModuleKey d.name d.plugin)) bp hrel
        rcases hsc : syncCopies env b platform
            (buildPathOf b (getModuleKey d.name d.plugin)) bp copies with ⟨t2, rc⟩
        rw [hsc] at hok
        simp only at hok
        rw [hok] at hsc
        rw [syncDeps_cons_copy_scOk hc hbp hsc]
        refine ih bp ?_
        rcases h with ⟨dep, hdep, c, hcd, habs⟩
        rcases List.mem_cons.mp hdep with rfl | hdep
        · rw [hc] at hcd
          exact absurd ⟨c, hcd, habs⟩ hex
        · exact ⟨dep, hdep, c, hcd, habs⟩

theorem syncFromSrc_ok_env {env : Env} {b : BuildDir} {platform : String}
    {mc : ModuleConfig} (h : (syncFromSrc env b platform mc).2 = .ok ()) :
    ∀ op ∈ (syncFromSrc env b platform mc).1, env op = none := by
  rcases buildPath_shape env b mc.name with hbp | ⟨me, hbp⟩
  · rw [syncFromSrc_bpOk hbp] at h ⊢
    intro op hop
    rcases List.mem_append.mp hop with h' | h'
    · have heq : op = Op.ensureDir (buildPathOf b mc.name) := by simpa using h'
      rw [heq]
      exact buildPath_ok_env hbp
    · exact sync_ok_env h op h'
  · rw [syncFromSrc_bpErr hbp] at h
    cases h

theorem syncFromSrc_fail {env : Env} {b : BuildDir} {platform : String}
    {mc : ModuleConfig} {op : Op} {m : String}
    (hop : op ∈ (syncFromSrc env b platform mc).1) (hm : env op = some m) :
    (syncFromSrc env b platform mc).2 = .error (.opFailed op m) := by
  rcases buildPath_shape env b mc.name with hbp | ⟨me, hbp⟩
  · rw [syncFromSrc_bpOk hbp] at hop ⊢
    rcases List.mem_append.mp hop with h' | h'
    · have heq : op = Op.ensureDir (buildPathOf b mc.name) := by simpa using h'
      rw [heq] at hm
      rw [buildPath_ok_env hbp] at hm
      cases hm
    · exact sync_fail h' hm
  · rw [syncFromSrc_bpErr hbp] at hop ⊢
    have heq : op = Op.ensureDir (buildPathOf b mc.name) := by simpa using hop
    subst heq
    cases he : env (Op.ensureDir (buildPathOf b mc.name)) with
    | none => rw [he] at hm; cases hm
    | some m2 =>
      rw [buildPath_cases_eq, he] at hbp
      rw [he] at hm
      cases hm
      cases hbp
      rfl

theorem syncDependencyProducts_ok_env {env : Env} {b : BuildDir} {platform : String}
    {m : Module} (h : (syncDependencyProducts env b platform m).2 = .ok ()) :
    ∀ op ∈ (syncDependencyProducts env b platform m).1, env op = none := by
  rcases buildPath_shape env b m.name with hbp | ⟨me, hbp⟩
  · rw [syncDependencyProducts_bpOk hbp] at h ⊢
    intro op hop
    rcases List.mem_append.mp hop with h' | h'
    · have heq : op = Op.ensureDir (buildPathOf b m.name) := by simpa using h'
      rw [heq]
      exact buildPath_ok_env hbp
    · exact syncDeps_ok_env env b platform _ _ h op h'
  · rw [syncDependencyProducts_bpErr hbp] at h
    cases h

theorem syncDependencyProducts_fail {env : Env} {b : BuildDir} {platform : String}
    {m : Module} {op : Op} {ms : String}
    (hop : op ∈ (syncDependencyProducts env b platform m).1)
    (hm : env op = some ms) :
    (syncDependencyProducts env b platform m).2 = .error (.opFailed op ms) := by
  rcases buildPath_shape env b m.name with hbp | ⟨me, hbp⟩
  · rw [syncDependencyProducts_bpOk hbp] at hop ⊢
    rcases List.mem_append.mp hop with h' | h'
    · have heq : op = Op.ensureDir (buildPathOf b m.name) := by simpa using h'
      rw [heq] at hm
      rw [buildPath_ok_env hbp] at hm
      cases hm
    · exact syncDeps_fail env b platform _ _ h' hm
  · rw [syncDependencyProducts_bpErr hbp] at hop ⊢
    have heq : op = Op.ensureDir (buildPathOf b m.name) := by simpa using hop
    subst heq
    cases he : env (Op.ensureDir (buildPathOf b m.name)) with
    | none => rw [he] at hm; cases hm
    | some m2 =>
      rw [buildPath_cases_eq, he] at hbp
      rw [he] at hm
      cases hm
      cases hbp
      rfl

/-- Processing a copy list stops at the first absolute spec: specs before it
are synced (all operations succeeding), the offending spec and everything
after it in the same list contribute no operation, and the list's outcome is
the `ConfigurationError`.  This mirrors the source exactly: the inner
`bluebird.map` mapper is a plain function, so its synchronous throw prevents
the later mappers of the same copy list from ever being invoked. -/
theorem syncCopies_stops_at_abs (env : Env) (b : BuildDir) (platform : String)
    (henv : ∀ op, env op = none) :
    ∀ (pre : List FileCopySpec) (sbp bp : Path) (bad : FileCopySpec)
      (post : List FileCopySpec),
      (∀ c ∈ pre, isAbsolutePath (toPath c.source) = false ∧
        isAbsolutePath (toPath c.target) = false) →
      (isAbsolutePath (toPath bad.source) = true ∨
        isAbsolutePath (toPath bad.target) = true) →
      ∃ msg, syncCopies env b platform sbp bp (pre ++ bad :: post) =
        ((syncCopies env b platform sbp bp pre).1,
          .error (.configError msg)) := by
  intro pre
  induction pre with
  | nil =>
    intro sbp bp bad post hrel habs
    rcases syncCopies_head_abs env b platform sbp bp bad post habs with ⟨msg, hmsg⟩
    refine ⟨msg, ?_⟩
    rw [List.nil_append, hmsg]
    rfl
  | cons p pre ih =>
    intro sbp bp bad post hrel habs
    have hp := hrel p (List.mem_cons_self _ _)
    rcases ih sbp bp bad post (fun c hc => hrel c (List.mem_cons_of_mem _ hc))
      habs with ⟨msg, hmsg⟩
    refine ⟨msg, ?_⟩
    have hn1 : ¬(isAbsolutePath (toPath p.source) = true) := by
      rw [hp.1]; simp
    have hn2 : ¬(isAbsolutePath (toPath p.target) = true) := by
      rw [hp.2]; simp
    simp only [List.cons_append, List.append_eq, syncCopies, if_neg hn1, if_neg hn2,
      sync_ok env b platform (join sbp (toPath p.source))
        (join bp (toPath p.target)) false (henv _) (henv _), hmsg]

end BuildDir

/-! ## Path normalization lemmas -/

theorem normCore_concat (A : Bool) (n : String) (hn1 : ¬(n = "" ∨ n = "."))
    (hn2 : ¬n = "..") :
    ∀ (cs acc : List String), normCore A acc (cs ++ [n]) = n :: normCore A acc cs := by
  intro cs
  induction cs with
  | nil =>
    intro acc
    simp only [List.nil_append, normCore, if_neg hn1, if_neg hn2]
  | cons c cs ih =>
    intro acc
    by_cases h1 : c = "" ∨ c = "."
    · simp only [List.cons_append, normCore, if_pos h1]
      exact ih acc
    · by_cases h2 : c = ".."
      · subst h2
        simp only [List.cons_append, normCore, if_neg h1, if_pos rfl]
        cases acc with
        | nil => exact ih _
        | cons a rest =>
          by_cases h3 : a = ".."
          · simp only [if_pos h3]
            exact ih _
          · simp only [if_neg h3]
            exact ih _
      · simp only [List.cons_append, normCore, if_neg h1, if_neg h2]
        exact ih _

theorem normCore_no_special (A : Bool) :
    ∀ (cs acc : List String), (∀ c ∈ cs, c ≠ "" ∧ c ≠ "." ∧ c ≠ "..") →
      normCore A acc cs = cs.reverse ++ acc := by
  intro cs
  induction cs with
  | nil =>
    intro acc h
    simp [normCore]
  | cons c cs ih =>
    intro acc h
    have hc := h c (List.mem_cons_self _ _)
    have hc1 : ¬(c = "" ∨ c = ".") := by
      rintro (h' | h')
      · exact hc.1 h'
      · exact hc.2.1 h'
    simp only [normCore, if_neg hc1, if_neg hc.2.2]
    rw [ih _ (fun x hx => h x (List.mem_cons_of_mem _ hx))]
    simp [List.reverse_cons, List.append_assoc]

theorem isAbsolutePath_append_singleton (bd : Path) (a c : String) :
    isAbsolutePath (bd ++ [a]) = isAbsolutePath (bd ++ [c]) := by
  cases bd with
  | nil => rfl
  | cons x t => cases t <;> rfl

/-- `resolve` of a base and a single non-special component: the component is
appended after the normalized base. -/
theorem resolve_snoc (bd : Path) (n : String) (hn1 : ¬(n = "" ∨ n = "."))
    (hn2 : ¬n = "..") :
    resolve bd [n] =
      (if isAbsolutePath (bd ++ [n]) = true then [""] else []) ++
        ((normCore (isAbsolutePath (bd ++ [n])) [] bd).reverse ++ [n]) := by
  unfold resolve
  have habs : isAbsolutePath [n] = false := rfl
  rw [habs]
  simp only [Bool.false_eq_true, if_false]
  unfold normalizePath
  simp only []
  rw [normCore_concat _ _ hn1 hn2]
  simp only [List.reverse_cons]
  have hcror : ((normCore (isAbsolutePath (bd ++ [n])) [] bd).reverse ++ [n]) ≠ [] := by
    simp
  cases hA : isAbsolutePath (bd ++ [n]) with
  | true => simp [hcror]
  | false => simp [hcror]

theorem cleanAbsPath_shape {p : Path} (h : CleanAbsPath p) :
    ∃ cs, p = "" :: cs ∧ cs ≠ [] ∧ ∀ c ∈ cs, c ≠ "" ∧ c ≠ "." ∧ c ≠ ".." := by
  obtain ⟨h1, h2, h3⟩ := h
  cases p with
  | nil => cases h1
  | cons a t =>
    have ha : a = "" := by simpa using h1
    subst ha
    refine ⟨t, rfl, ?_, ?_⟩
    · intro ht
      subst ht
      simp at h2
    · exact h3

theorem normalizePath_clean_snoc (k : Bool) {g : Path} {s : String}
    (hg : CleanAbsPath g) (hs : s ≠ "" ∧ s ≠ "." ∧ s ≠ "..") :
    normalizePath k (g ++ [s]) = g ++ [s] := by
  obtain ⟨cs, rfl, hne, hcs⟩ := cleanAbsPath_shape hg
  have hA : isAbsolutePath (("" :: cs) ++ [s]) = true := by
    cases cs <;> rfl
  have hs1 : ¬(s = "" ∨ s = ".") := by
    rintro (h' | h')
    · exact hs.1 h'
    · exact hs.2.1 h'
  unfold normalizePath
  simp only []
  rw [hA]
  have hcore : normCore true [] (("" :: cs) ++ [s]) = s :: cs.reverse := by
    have h0 : (("" :: cs) ++ [s]) = "" :: (cs ++ [s]) := by simp
    rw [h0]
    simp only [normCore, if_pos (Or.inl rfl)]
    rw [normCore_concat _ _ hs1 hs.2.2, normCore_no_special _ _ _ hcs]
    simp
  rw [hcore]
  simp only [List.reverse_cons, List.reverse_reverse]
  have hlast : (("" :: cs) ++ [s]).getLast? = some s := List.getLast?_concat _
  rw [hlast]
  have hsne : (some s == some "") = false := by
    simp [hs.1]
  rw [hsne]
  simp

theorem resolve_clean_snoc {g : Path} {s : String} (hg : CleanAbsPath g)
    (hs : s ≠ "" ∧ s ≠ "." ∧ s ≠ "..") :
    resolve g [s] = g ++ [s] := by
  unfold resolve
  have habs : isAbsolutePath [s] = false := rfl
  rw [habs]
  simp only [Bool.false_eq_true, if_false]
  exact normalizePath_clean_snoc false hg hs

theorem join_clean_single {g : Path} {s : String} (hg : CleanAbsPath g)
    (hs : s ≠ "" ∧ s ≠ "." ∧ s ≠ "..") :
    join g [s] = g ++ [s] := by
  obtain ⟨cs, hgeq, hne, hcs⟩ := cleanAbsPath_shape hg
  have hgne : g ≠ [""] := by
    rw [hgeq]
    intro hcontra
    injection hcontra with h1 h2
    exact hne h2
  have hsne : [s] ≠ ([""] : List String) := by
    intro hcontra
    injection hcontra with h1 h2
    exact hs.1 h1
  unfold join
  simp only []
  have hfil : [g, [s]].filter (fun q => q ≠ [""]) = [g, [s]] := by
    simp [List.filter, hgne, hsne]
  rw [hfil]
  have hfold : ([g, [s]] : List Path).foldr (fun x r => x ++ r) [] = g ++ [s] := by
    simp
  rw [hfold]
  exact normalizePath_clean_snoc true hg hs

theorem cleanAbsPath_snoc {g : Path} {s : String} (hg : CleanAbsPath g)
    (hs : s ≠ "" ∧ s ≠ "." ∧ s ≠ "..") : CleanAbsPath (g ++ [s]) := by
  obtain ⟨cs, rfl, hne, hcs⟩ := cleanAbsPath_shape hg
  refine ⟨by simp [CleanAbsPath], ?_, ?_⟩
  · simp
  · intro c hc
    simp only [List.cons_append, List.tail_cons] at hc
    rcases List.mem_append.mp hc with hc | hc
    · exact hcs c hc
    · have : c = s := by simpa using hc
      rw [this]
      exact hs

theorem append_single_not_prefix (g : Path) (x y : String) (hxy : x ≠ y)
    (r : List String) : ¬(g ++ [x]) <+: (g ++ (y :: r)) := by
  intro h
  rw [List.prefix_append_right_inj] at h
  rw [List.cons_prefix_cons] at h
  exact hxy h.1

namespace BuildDir

/-- Processing a dependency entry without a copy list is a no-op: the run
is identical to the run with that entry removed. -/
theorem syncDeps_map_skip (env : Env) (b : BuildDir) (platform : String)
    (bp : Path) (d : BuildDependencyConfig) (hd : d.copy = none)
    (post : List BuildDependencyConfig) :
    ∀ pre : List BuildDependencyConfig,
      syncDeps env b platform bp
        ((pre ++ d :: post).map (fun a => (some a, some a))) =
      syncDeps env b platform bp
        ((pre ++ post).map (fun a => (some a, some a))) := by
  intro pre
  induction pre with
  | nil =>
    simp only [List.nil_append, List.map_cons]
    rw [syncDeps_cons_nocopy env b platform bp d d _ hd]
  | cons p pre ih =>
    simp only [List.cons_append, List.map_cons]
    cases hc : p.copy with
    | none =>
      rw [syncDeps_cons_nocopy env b platform bp p p _ hc,
          syncDeps_cons_nocopy env b platform bp p p _ hc]
      exact ih
    | some copies =>
      rcases buildPath_shape env b (getModuleKey p.name p.plugin) with hbp2 | ⟨me2, hbp2⟩
      · rcases hsc : syncCopies env b platform
            (buildPathOf b (getModuleKey p.name p.plugin)) bp copies with ⟨t2, rc⟩
        cases rc with
        | error e =>
          rw [syncDeps_cons_copy_scErr hc hbp2 hsc,
              syncDeps_cons_copy_scErr hc hbp2 hsc]
        | ok u =>
          cases u
          rw [syncDeps_cons_copy_scOk hc hbp2 hsc,
              syncDeps_cons_copy_scOk hc hbp2 hsc, ih]
      · rw [syncDeps_cons_copy_bpErr hc hbp2, syncDeps_cons_copy_bpErr hc hbp2]

end BuildDir

/-! ## The claims -/

/-- **C3**: For every module, `stageDependencies` (`syncDependencyProducts`)
never deletes extraneous files at the target: every copy-spec sync it issues
runs without delete-extraneous (no `--delete` flag), so files already
present at the target path that the copied dependency subtree does not
contain remain unchanged (no file is ever removed from the abstract
filesystem by its trace). -/
theorem c3_stageDependencies_never_deletes (env : Env) (b : BuildDir)
    (platform : String) (m : Module) :
    (∀ opts sp dp,
      Op.rsync opts sp dp ∈ (BuildDir.syncDependencyProducts env b platform m).1 →
      "--delete" ∉ opts) ∧
    (∀ (fs : FS) (p : Path) (x : String), x ∈ fs p →
      x ∈ interp fs (BuildDir.syncDependencyProducts env b platform m).1 p) := by
  have hops : ∀ op ∈ (BuildDir.syncDependencyProducts env b platform m).1,
      preservesFiles op := by
    intro op hop
    rcases BuildDir.syncDependencyProducts_mem hop with ⟨q, rfl⟩ | ⟨sp, dp, rfl⟩
    · trivial
    · exact delete_not_mem_syncOpts_false b.buildDirPath
  constructor
  · intro opts sp dp h
    rcases BuildDir.syncDependencyProducts_mem h with ⟨q, heq⟩ | ⟨sp2, dp2, heq⟩
    · simp at heq
    · injection heq with h1 h2 h3
      rw [h1]
      exact delete_not_mem_syncOpts_false b.buildDirPath
  · intro fs p x hx
    exact interp_mono hops hx

/-- **C3** witness: a stale file sitting in the module's build root
survives a dependency staging pass at a concrete input. -/
theorem c3_stageDependencies_never_deletes_witness :
    ("stale" ∈ fsFx (toPath "/proj/.garden/build/mymod")) ∧
    "stale" ∈ interp fsFx
      (BuildDir.syncDependencyProducts envOkFx bFx "linux" mDepFx).1
      (toPath "/proj/.garden/build/mymod") :=
  ⟨by decide,
    (c3_stageDependencies_never_deletes envOkFx bFx "linux" mDepFx).2 fsFx
      (toPath "/proj/.garden/build/mymod") "stale" (by decide)⟩

/-- **C5**: Whenever the external rsync invocation (or any other awaited
operation) fails, the promise returned by the staging operation
(`syncFromSrc` or `syncDependencyProducts`) rejects with that failure: a
successful outcome implies no attempted operation failed, and a failed
attempted operation makes the outcome exactly that operation's failure —
never silently swallowed. -/
theorem c5_sync_failures_reject (env : Env) (b : BuildDir) (platform : String)
    (mc : ModuleConfig) (m : Module) :
    ((BuildDir.syncFromSrc env b platform mc).2 = .ok () →
      ∀ op ∈ (BuildDir.syncFromSrc env b platform mc).1, env op = none) ∧
    (∀ op msg, op ∈ (BuildDir.syncFromSrc env b platform mc).1 →
      env op = some msg →
      (BuildDir.syncFromSrc env b platform mc).2 = .error (.opFailed op msg)) ∧
    ((BuildDir.syncDependencyProducts env b platform m).2 = .ok () →
      ∀ op ∈ (BuildDir.syncDependencyProducts env b platform m).1, env op = none) ∧
    (∀ op msg, op ∈ (BuildDir.syncDependencyProducts env b platform m).1 →
      env op = some msg →
      (BuildDir.syncDependencyProducts env b platform m).2 =
        .error (.opFailed op msg)) :=
  ⟨fun h => BuildDir.syncFromSrc_ok_env h,
    fun op msg h1 h2 => BuildDir.syncFromSrc_fail h1 h2,
    fun h => BuildDir.syncDependencyProducts_ok_env h,
    fun op msg h1 h2 => BuildDir.syncDependencyProducts_fail h1 h2⟩

/-- **C5** witness: at a concrete input where the rsync invocation fails,
`syncFromSrc` rejects with exactly that failure. -/
theorem c5_sync_failures_reject_witness :
    (Op.rsync ["-rptgo", "--exclude=/proj/.garden/build", "--delete"]
        (toPath "/proj/sub/mod/") (toPath "/proj/.garden/build/mymod") ∈
      (BuildDir.syncFromSrc envRsyncFailFx bFx "linux" mcFx).1) ∧
    (envRsyncFailFx (Op.rsync ["-rptgo", "--exclude=/proj/.garden/build", "--delete"]
        (toPath "/proj/sub/mod/") (toPath "/proj/.garden/build/mymod")) =
      some "rsync exited with code 1") ∧
    (BuildDir.syncFromSrc envRsyncFailFx bFx "linux" mcFx).2 =
      .error (.opFailed
        (Op.rsync ["-rptgo", "--exclude=/proj/.garden/build", "--delete"]
          (toPath "/proj/sub/mod/") (toPath "/proj/.garden/build/mymod"))
        "rsync exited with code 1") :=
  ⟨by decide, by decide,
    (c5_sync_failures_reject envRsyncFailFx bFx "linux" mcFx mDepFx).2.1
      (Op.rsync ["-rptgo", "--exclude=/proj/.garden/build", "--delete"]
        (toPath "/proj/sub/mod/") (toPath "/proj/.garden/build/mymod"))
      "rsync exited with code 1" (by decide) (by decide)⟩

/-- **C6**: For every invocation of `stageSource` (`syncFromSrc`) and
`stageDependencies` (`syncDependencyProducts`), the destination path's
parent directory is ensured to exist before the sync tool is invoked:
`sync`'s first operation is `ensureDir` on the parsed parent directory of
the destination path, and in both entry points' traces every rsync
invocation is immediately preceded by an `ensureDir`. -/
theorem c6_parent_dir_ensured_before_sync (env : Env) (b : BuildDir)
    (platform : String) (s d : Path) (w : Bool) (mc : ModuleConfig) (m : Module) :
    (BuildDir.sync env b platform s d w).1.head? =
      some (Op.ensureDir (parseDir d)) ∧
    rsyncGuarded (BuildDir.syncFromSrc env b platform mc).1 = true ∧
    rsyncGuarded (BuildDir.syncDependencyProducts env b platform m).1 = true :=
  ⟨BuildDir.sync_head env b platform s d w,
    BuildDir.syncFromSrc_guarded env b platform mc,
    BuildDir.syncDependencyProducts_guarded env b platform m⟩

/-- **C9**: Every sync invocation, from both `stageSource` and
`stageDependencies`, passes `--exclude=<buildDirPath>` to rsync, so the
build directory itself is excluded from every transfer. -/
theorem c9_exclude_build_dir (env : Env) (b : BuildDir) (platform : String)
    (mc : ModuleConfig) (m : Module) :
    (∀ opts sp dp,
      Op.rsync opts sp dp ∈ (BuildDir.syncFromSrc env b platform mc).1 →
      ("--exclude=" ++ renderPath b.buildDirPath) ∈ opts) ∧
    (∀ opts sp dp,
      Op.rsync opts sp dp ∈ (BuildDir.syncDependencyProducts env b platform m).1 →
      ("--exclude=" ++ renderPath b.buildDirPath) ∈ opts) := by
  constructor
  · intro opts sp dp h
    rcases BuildDir.syncFromSrc_mem h with ⟨q, heq⟩ | ⟨sp2, dp2, heq⟩
    · simp at heq
    · injection heq with h1 h2 h3
      rw [h1]
      exact exclude_mem_syncOpts true b.buildDirPath
  · intro opts sp dp h
    rcases BuildDir.syncDependencyProducts_mem h with ⟨q, heq⟩ | ⟨sp2, dp2, heq⟩
    · simp at heq
    · injection heq with h1 h2 h3
      rw [h1]
      exact exclude_mem_syncOpts false b.buildDirPath

/-- **C9** witness: the concrete rsync invocation of a `syncFromSrc` run
carries the `--exclude=<buildDirPath>` option. -/
theorem c9_exclude_build_dir_witness :
    (Op.rsync ["-rptgo", "--exclude=/proj/.garden/build", "--delete"]
        (toPath "/proj/sub/mod/") (toPath "/proj/.garden/build/mymod") ∈
      (BuildDir.syncFromSrc envOkFx bFx "linux" mcFx).1) ∧
    ("--exclude=" ++ renderPath bFx.buildDirPath) ∈
      ["-rptgo", "--exclude=/proj/.garden/build", "--delete"] :=
  ⟨by decide,
    (c9_exclude_build_dir envOkFx bFx "linux" mcFx mDepFx).1
      ["-rptgo", "--exclude=/proj/.garden/build", "--delete"]
      (toPath "/proj/sub/mod/") (toPath "/proj/.garden/build/mymod") (by decide)⟩

/-- **C10**: For every build dependency whose configuration carries no copy
list, `syncDependencyProducts` performs no sync and no path-validity check
for that dependency and completes without error from it: the whole run
(trace and outcome) is identical to the run on the module with that
dependency removed, so the module's Build Root is unchanged by that
dependency. -/
theorem c10_copyless_dependency_skipped (env : Env) (b : BuildDir)
    (platform : String) (name : String) (pre post : List BuildDependencyConfig)
    (d : BuildDependencyConfig) (hd : d.copy = none) :
    BuildDir.syncDependencyProducts env b platform ⟨name, ⟨pre ++ d :: post⟩⟩ =
      BuildDir.syncDependencyProducts env b platform ⟨name, ⟨pre ++ post⟩⟩ := by
  rcases BuildDir.buildPath_shape env b name with hbp | ⟨me, hbp⟩
  · rw [BuildDir.syncDependencyProducts_bpOk hbp,
      BuildDir.syncDependencyProducts_bpOk hbp]
    simp only [lodashZip_self]
    rw [BuildDir.syncDeps_map_skip env b platform (BuildDir.buildPathOf b name)
      d hd post pre]
  · rw [BuildDir.syncDependencyProducts_bpErr hbp,
      BuildDir.syncDependencyProducts_bpErr hbp]

/-- **C1** counterexample: the claim "for every copy spec with an absolute
`source`/`target`, `syncDependencyProducts` raises a `ConfigurationError`
and no file operations are performed (the error is raised before any sync
I/O occurs)" is false as stated: with a copy list holding a valid spec
before the absolute one, the valid spec's rsync invocation is issued before
the `ConfigurationError` surfaces. -/
theorem c1_absolute_copy_counterexample :
    ((BuildDir.syncDependencyProducts envOkFx bFx "linux" mMixedFx).2 =
      .error (.configError
        "Target path in build dependency copy spec must be a relative path")) ∧
    ¬(∀ op ∈ (BuildDir.syncDependencyProducts envOkFx bFx "linux" mMixedFx).1,
        isRsync op = false) := by
  constructor
  · rfl
  · intro hall
    have h := hall
      (Op.rsync ["-rptgo", "--exclude=/proj/.garden/build"]
        (toPath "/proj/.garden/build/dep/out")
        (toPath "/proj/.garden/build/mymod/vendor"))
      (by decide)
    simp [isRsync] at h

/-- **C1** (amended): For every module and every build-dependency copy spec
whose source or target field is an absolute path, `syncDependencyProducts`
raises a `ConfigurationError` (when the filesystem operations themselves
succeed), and the offending copy spec itself is never synced: the
synchronous validity check stops the processing of that dependency's copy
list at the offending spec, so no sync is issued for it or for any later
spec of the same copy list, and a copy list whose first spec is absolute
issues no operation at all.  Syncs for earlier specs of the same copy list
— and the other dependencies of the module, whose processing the source
starts concurrently — may still be performed (see the counterexample). -/
theorem c1_amended_absolute_copy_rejected (env : Env) (b : BuildDir)
    (platform : String) (m : Module) (henv : ∀ op, env op = none)
    (habs : ∃ dep ∈ m.build.dependencies, ∃ c ∈ dep.copy.getD [],
      isAbsolutePath (toPath c.source) = true ∨
        isAbsolutePath (toPath c.target) = true) :
    (∃ msg, (BuildDir.syncDependencyProducts env b platform m).2 =
      .error (.configError msg)) ∧
    (∀ (sbp bp : Path) (bad : FileCopySpec) (post : List FileCopySpec),
      (isAbsolutePath (toPath bad.source) = true ∨
        isAbsolutePath (toPath bad.target) = true) →
      ∃ msg, BuildDir.syncCopies env b platform sbp bp (bad :: post) =
        ([], .error (.configError msg))) ∧
    (∀ (sbp bp : Path) (pre : List FileCopySpec) (bad : FileCopySpec)
        (post : List FileCopySpec),
      (∀ c ∈ pre, isAbsolutePath (toPath c.source) = false ∧
        isAbsolutePath (toPath c.target) = false) →
      (isAbsolutePath (toPath bad.source) = true ∨
        isAbsolutePath (toPath bad.target) = true) →
      ∃ msg, BuildDir.syncCopies env b platform sbp bp (pre ++ bad :: post) =
        ((BuildDir.syncCopies env b platform sbp bp pre).1,
          .error (.configError msg))) := by
  refine ⟨?_, ?_, ?_⟩
  · have hbp := BuildDir.buildPath_ok env b m.name (henv _)
    rcases BuildDir.syncDeps_err_abs env b platform henv m.build.dependencies
      (BuildDir.buildPathOf b m.name) habs with ⟨msg, hmsg⟩
    refine ⟨msg, ?_⟩
    rw [BuildDir.syncDependencyProducts_bpOk hbp, lodashZip_self]
    exact hmsg
  · intro sbp bp bad post habs2
    exact BuildDir.syncCopies_head_abs env b platform sbp bp bad post habs2
  · intro sbp bp pre bad post hrel habs2
    exact BuildDir.syncCopies_stops_at_abs env b platform henv pre sbp bp bad
      post hrel habs2

/-- **C1** witness: at a concrete module whose first copy spec has an
absolute source, the amended claim applies: a `ConfigurationError` is
raised. -/
theorem c1_amended_absolute_copy_rejected_witness :
    (∀ op, envOkFx op = none) ∧
    (∃ dep ∈ mAbsFirstFx.build.dependencies, ∃ c ∈ dep.copy.getD [],
      isAbsolutePath (toPath c.source) = true ∨
        isAbsolutePath (toPath c.target) = true) ∧
    (∃ msg, (BuildDir.syncDependencyProducts envOkFx bFx "linux" mAbsFirstFx).2 =
      .error (.configError msg)) ∧
    ∃ msg, BuildDir.syncCopies envOkFx bFx "linux"
        (toPath "/proj/.garden/build/dep") (toPath "/proj/.garden/build/mymod")
        (⟨"/abs", "t"⟩ :: []) =
      ([], .error (.configError msg)) :=
  ⟨fun _ => rfl, by decide,
    (c1_amended_absolute_copy_rejected envOkFx bFx "linux" mAbsFirstFx
      (fun _ => rfl) (by decide)).1,
    (c1_amended_absolute_copy_rejected envOkFx bFx "linux" mAbsFirstFx
      (fun _ => rfl) (by decide)).2.1
      (toPath "/proj/.garden/build/dep") (toPath "/proj/.garden/build/mymod")
      ⟨"/abs", "t"⟩ [] (by decide)⟩

/-- **C2**: For every module, `stageSource` (`syncFromSrc`) performs the
sync with delete-extraneous enabled: every rsync invocation it issues (for
any outcome environment) carries `--delete`; under successful operations
its trace is exactly build-path creation, parent creation and one rsync
with `--delete`; and interpreting that trace makes the destination's
contents exactly the source's contents — every file previously present in
the module's Build Root but absent from the source subtree is gone (full
mirror semantics, modelled from spec §6). -/
theorem c2_stageSource_mirror_delete (env : Env) (b : BuildDir)
    (platform : String) (mc : ModuleConfig) (henv : ∀ op, env op = none) :
    (∀ env2 : Env, ∀ opts sp dp,
      Op.rsync opts sp dp ∈ (BuildDir.syncFromSrc env2 b platform mc).1 →
      "--delete" ∈ opts) ∧
    (BuildDir.syncFromSrc env b platform mc).1 =
      [Op.ensureDir (BuildDir.buildPathOf b mc.name),
       Op.ensureDir (parseDir (BuildDir.buildPathOf b mc.name)),
       BuildDir.syncRsyncOp b platform
         (resolve b.projectRoot (toPath mc.path) ++ [""])
         (BuildDir.buildPathOf b mc.name) true] ∧
    (∀ (fs : FS) (p : Path),
      canonPath p = canonPath (stripWildcard
        (if platform == "win32"
          then toCygwinPath (BuildDir.buildPathOf b mc.name)
          else BuildDir.buildPathOf b mc.name)) →
      interp fs (BuildDir.syncFromSrc env b platform mc).1 p =
        fs (canonPath (stripWildcard
          (if platform == "win32"
            then toCygwinPath (resolve b.projectRoot (toPath mc.path) ++ [""])
            else resolve b.projectRoot (toPath mc.path) ++ [""])))) := by
  have hbp := BuildDir.buildPath_ok env b mc.name (henv _)
  have htrace : (BuildDir.syncFromSrc env b platform mc).1 =
      [Op.ensureDir (BuildDir.buildPathOf b mc.name),
       Op.ensureDir (parseDir (BuildDir.buildPathOf b mc.name)),
       BuildDir.syncRsyncOp b platform
         (resolve b.projectRoot (toPath mc.path) ++ [""])
         (BuildDir.buildPathOf b mc.name) true] := by
    rw [BuildDir.syncFromSrc_bpOk hbp,
      BuildDir.sync_ok env b platform _ _ true (henv _) (henv _)]
    rfl
  refine ⟨?_, htrace, ?_⟩
  · intro env2 opts sp dp h
    rcases BuildDir.syncFromSrc_mem h with ⟨q, heq⟩ | ⟨sp2, dp2, heq⟩
    · simp at heq
    · injection heq with h1 _ _
      rw [h1]
      exact delete_mem_syncOpts_true b.buildDirPath
  · intro fs p hp
    rw [htrace]
    simp only [interp, List.foldl_cons, List.foldl_nil, applyOp,
      BuildDir.syncRsyncOp]
    rw [if_pos hp, if_pos (delete_mem_syncOpts_true b.buildDirPath)]

/-- **C2** witness: the concrete staging trace of a module, with its single
rsync invocation carrying `--delete`. -/
theorem c2_stageSource_mirror_delete_witness :
    (∀ op, envOkFx op = none) ∧
    (BuildDir.syncFromSrc envOkFx bFx "linux" mcFx).1 =
      [Op.ensureDir (BuildDir.buildPathOf bFx mcFx.name),
       Op.ensureDir (parseDir (BuildDir.buildPathOf bFx mcFx.name)),
       BuildDir.syncRsyncOp bFx "linux"
         (resolve bFx.projectRoot (toPath mcFx.path) ++ [""])
         (BuildDir.buildPathOf bFx mcFx.name) true] :=
  ⟨fun _ => rfl,
    (c2_stageSource_mirror_delete envOkFx bFx "linux" mcFx (fun _ => rfl)).2.1⟩

/-- The two possible outcomes of `factory`, by cases on the environment. -/
theorem factory_cases_eq (env : Env) (pr g : Path) :
    BuildDir.factory env pr g =
      match env (Op.ensureDir (join g (toPath "build"))) with
      | some m =>
        ([Op.ensureDir (join g (toPath "build"))],
          .error (.opFailed (Op.ensureDir (join g (toPath "build"))) m))
      | none =>
        match env (Op.ensureDir (join g (toPath "build-metadata"))) with
        | some m =>
          ([Op.ensureDir (join g (toPath "build")),
            Op.ensureDir (join g (toPath "build-metadata"))],
            .error (.opFailed (Op.ensureDir (join g (toPath "build-metadata"))) m))
        | none =>
          ([Op.ensureDir (join g (toPath "build")),
            Op.ensureDir (join g (toPath "build-metadata"))],
            .ok ⟨pr, join g (toPath "build"), join g (toPath "build-metadata")⟩) := rfl

/-- **C4**: For every module, emptying the Build Root directory via
`clear()` leaves the Build Metadata Path's contents unchanged: `clear`
empties only `buildDirPath` (and its subtree), and for a `BuildDir` built
by `factory` over a normalized absolute garden directory, the module's
metadata path — indeed every path under `buildMetadataDirPath` — is outside
that subtree, while the Build Root itself is emptied. -/
theorem c4_clear_preserves_metadata (envF envC : Env) (pr g : Path)
    (n : String) (fs : FS) (b : BuildDir) (hg : CleanAbsPath g)
    (hn : SimpleName n) (hfact : (BuildDir.factory envF pr g).2 = .ok b) :
    interp fs (BuildDir.clear envC b).1 (BuildDir.buildMetadataPathOf b n) =
      fs (BuildDir.buildMetadataPathOf b n) ∧
    (∀ q, b.buildMetadataDirPath <+: q →
      interp fs (BuildDir.clear envC b).1 q = fs q) ∧
    interp fs (BuildDir.clear envC b).1 b.buildDirPath = [] := by
  have hb : b = ⟨pr, join g (toPath "build"), join g (toPath "build-metadata")⟩ := by
    rw [factory_cases_eq] at hfact
    cases he1 : envF (Op.ensureDir (join g (toPath "build"))) with
    | some m => rw [he1] at hfact; cases hfact
    | none =>
      rw [he1] at hfact
      cases he2 : envF (Op.ensureDir (join g (toPath "build-metadata"))) with
      | some m => rw [he2] at hfact; cases hfact
      | none =>
        rw [he2] at hfact
        injection hfact with hfact
        exact hfact.symm
  subst hb
  have hbuild : join g (toPath "build") = g ++ ["build"] :=
    join_clean_single hg ⟨by decide, by decide, by decide⟩
  have hmeta : join g (toPath "build-metadata") = g ++ ["build-metadata"] :=
    join_clean_single hg ⟨by decide, by decide, by decide⟩
  have hct : (BuildDir.clear envC
      ⟨pr, join g (toPath "build"), join g (toPath "build-metadata")⟩).1 =
      [Op.emptyDir (g ++ ["build"])] := by
    rw [BuildDir.clear_trace]
    show [Op.emptyDir (join g (toPath "build"))] = _
    rw [hbuild]
  have hmp : BuildDir.buildMetadataPathOf
      ⟨pr, join g (toPath "build"), join g (toPath "build-metadata")⟩ n =
      (g ++ ["build-metadata"]) ++ [n] := by
    show resolve (join g (toPath "build-metadata")) (toPath n) = _
    rw [hmeta, hn.1]
    exact resolve_clean_snoc
      (cleanAbsPath_snoc hg ⟨by decide, by decide, by decide⟩)
      ⟨hn.2.1, hn.2.2.1, hn.2.2.2⟩
  have hmain : ∀ q, (g ++ ["build-metadata"]) <+: q →
      interp fs (BuildDir.clear envC
        ⟨pr, join g (toPath "build"), join g (toPath "build-metadata")⟩).1 q = fs q := by
    intro q hq
    obtain ⟨r, rfl⟩ := hq
    rw [hct]
    show applyOp fs (Op.emptyDir (g ++ ["build"])) ((g ++ ["build-metadata"]) ++ r) = _
    have hnp : ¬(g ++ ["build"]) <+: ((g ++ ["build-metadata"]) ++ r) := by
      rw [List.append_assoc]
      have hsa : (["build-metadata"] ++ r : List String) = "build-metadata" :: r := rfl
      rw [hsa]
      exact append_single_not_prefix g "build" "build-metadata" (by decide) r
    simp only [applyOp]
    rw [if_neg hnp]
  refine ⟨?_, ?_, ?_⟩
  · rw [hmp]
    exact hmain _ (List.prefix_append _ _)
  · intro q hq
    refine hmain q ?_
    have hq2 : join g (toPath "build-metadata") <+: q := hq
    rw [hmeta] at hq2
    exact hq2
  · show interp fs (BuildDir.clear envC
      ⟨pr, join g (toPath "build"), join g (toPath "build-metadata")⟩).1
        (join g (toPath "build")) = []
    rw [hct, hbuild]
    show applyOp fs (Op.emptyDir (g ++ ["build"])) (g ++ ["build"]) = []
    simp only [applyOp]
    rw [if_pos (List.prefix_refl _)]

/-- **C4** witness: at a concrete garden directory, module and filesystem,
the metadata path's contents are untouched by `clear`. -/
theorem c4_clear_preserves_metadata_witness :
    CleanAbsPath (toPath "/proj/.garden") ∧ SimpleName "mymod" ∧
    ((BuildDir.factory envOkFx (toPath "/proj") (toPath "/proj/.garden")).2 =
      .ok bFx) ∧
    interp fsFx (BuildDir.clear envOkFx bFx).1
        (BuildDir.buildMetadataPathOf bFx "mymod") =
      fsFx (BuildDir.buildMetadataPathOf bFx "mymod") :=
  ⟨by decide, by decide, rfl,
    (c4_clear_preserves_metadata envOkFx envOkFx (toPath "/proj")
      (toPath "/proj/.garden") "mymod" fsFx bFx (by decide) (by decide) rfl).1⟩

/-- **C7**: For every pair of distinct module names (single-component
names, as the validated configuration provides), `buildPath` computes
distinct directories; repeated calls return the same `ok` value, and for a
normalized absolute `buildDirPath` the directory is `buildDirPath/<name>`,
i.e. under `buildDirPath`. -/
theorem c7_buildPath_unique (b : BuildDir) (n1 n2 : String)
    (h1 : SimpleName n1) (h2 : SimpleName n2) (hne : n1 ≠ n2) :
    BuildDir.buildPathOf b n1 ≠ BuildDir.buildPathOf b n2 ∧
    (∀ env : Env, env (Op.ensureDir (BuildDir.buildPathOf b n1)) = none →
      BuildDir.buildPath env b n1 =
        ([Op.ensureDir (BuildDir.buildPathOf b n1)],
          .ok (BuildDir.buildPathOf b n1))) ∧
    (CleanAbsPath b.buildDirPath →
      BuildDir.buildPathOf b n1 = b.buildDirPath ++ [n1]) := by
  obtain ⟨ht1, hne1, hd1, hdd1⟩ := h1
  obtain ⟨ht2, hne2, hd2, hdd2⟩ := h2
  have ho1 : ¬(n1 = "" ∨ n1 = ".") := by
    rintro (h | h)
    · exact hne1 h
    · exact hd1 h
  have ho2 : ¬(n2 = "" ∨ n2 = ".") := by
    rintro (h | h)
    · exact hne2 h
    · exact hd2 h
  refine ⟨?_, ?_, ?_⟩
  · intro heq
    unfold BuildDir.buildPathOf at heq
    rw [ht1, ht2, resolve_snoc b.buildDirPath n1 ho1 hdd1,
      resolve_snoc b.buildDirPath n2 ho2 hdd2,
      ← isAbsolutePath_append_singleton b.buildDirPath n1 n2] at heq
    have h3 := List.append_cancel_left heq
    have h4 := List.append_cancel_left h3
    injection h4 with h5 _
    exact hne h5
  · intro env he
    exact BuildDir.buildPath_ok env b n1 he
  · intro hcl
    unfold BuildDir.buildPathOf
    rw [ht1]
    exact resolve_clean_snoc hcl ⟨hne1, hd1, hdd1⟩

/-- **C7** witness: two concrete distinct module names receive distinct
build paths. -/
theorem c7_buildPath_unique_witness :
    SimpleName "foo" ∧ SimpleName "bar" ∧
    BuildDir.buildPathOf bFx "foo" ≠ BuildDir.buildPathOf bFx "bar" :=
  ⟨by decide, by decide,
    (c7_buildPath_unique bFx "foo" "bar" (by decide) (by decide) (by decide)).1⟩

/-- **C8**: On a win32 host, `sync` translates both the source and the
destination path with `toCygwinPath` before invoking rsync, and on every
other platform the paths are passed through untranslated (only the trailing
`/*` wildcard is stripped in both cases); in both cases the rsync options
(flags, delete behaviour, exclude rule) are the same `syncOpts`. -/
theorem c8_win32_path_translation (env : Env) (b : BuildDir)
    (platform : String) (s d : Path) (w : Bool) (hpf : platform ≠ "win32") :
    (∀ opts sp dp,
      Op.rsync opts sp dp ∈ (BuildDir.sync env b "win32" s d w).1 →
      opts = syncOpts w b.buildDirPath ∧
        sp = stripWildcard (toCygwinPath s) ∧
        dp = stripWildcard (toCygwinPath d)) ∧
    (∀ opts sp dp,
      Op.rsync opts sp dp ∈ (BuildDir.sync env b platform s d w).1 →
      opts = syncOpts w b.buildDirPath ∧
        sp = stripWildcard s ∧ dp = stripWildcard d) := by
  constructor
  · intro opts sp dp h
    have heq := (BuildDir.sync_rsync_mem h).1
    unfold BuildDir.syncRsyncOp at heq
    have hbe : (("win32" : String) == "win32") = true := by decide
    rw [if_pos hbe, if_pos hbe] at heq
    injection heq with hopts hsp hdp
    exact ⟨hopts, hsp, hdp⟩
  · intro opts sp dp h
    have heq := (BuildDir.sync_rsync_mem h).1
    unfold BuildDir.syncRsyncOp at heq
    have hbe : ((platform == "win32")) = false := beq_eq_false_iff_ne.mpr hpf
    rw [hbe] at heq
    simp only [Bool.false_eq_true, if_false] at heq
    injection heq with hopts hsp hdp
    exact ⟨hopts, hsp, hdp⟩

/-- **C8** witness: on a non-win32 platform, the concrete rsync invocation
receives the untranslated (wildcard-stripped) paths with the same options. -/
theorem c8_win32_path_translation_witness :
    (("linux" : String) ≠ "win32") ∧
    (["-rptgo", "--exclude=/proj/.garden/build", "--delete"] =
        syncOpts true bFx.buildDirPath ∧
      toPath "/src/" = stripWildcard (toPath "/src/*") ∧
      toPath "/dst" = stripWildcard (toPath "/dst")) :=
  ⟨by decide,
    (c8_win32_path_translation envOkFx bFx "linux" (toPath "/src/*")
      (toPath "/dst") true (by decide)).2
      ["-rptgo", "--exclude=/proj/.garden/build", "--delete"]
      (toPath "/src/") (toPath "/dst") (by decide)⟩

/-- **C10** witness: removing a concrete copyless dependency leaves a
concrete run unchanged. -/
theorem c10_copyless_dependency_skipped_witness :
    (depNoCopyFx.copy = none) ∧
    BuildDir.syncDependencyProducts envOkFx bFx "linux"
        ⟨"mymod", ⟨[depGoodFx] ++ depNoCopyFx :: []⟩⟩ =
      BuildDir.syncDependencyProducts envOkFx bFx "linux"
        ⟨"mymod", ⟨[depGoodFx] ++ []⟩⟩ :=
  ⟨rfl, c10_copyless_dependency_skipped envOkFx bFx "linux" "mymod"
    [depGoodFx] [] depNoCopyFx rfl⟩

end Garden